import Mathlib

/-!
Verification of the `alfred-talk` transcript-ingestion pipeline
(`src/index.ts`) against its natural-language specification.

The TypeScript source is shallowly embedded: each JS helper becomes a
Lean function over `String` / `List Char`, the raw webhook JSON payload
becomes an explicit structure with `Option` fields at the key paths the
code dereferences, filesystem state (mailbox directory tree, ledger
file) becomes explicit values threaded through the scan, and each
side-effecting sink invocation becomes an `Event` in an emitted trace,
with a `SinkOutcomes` oracle standing in for whether a given external
call throws.
-/

namespace AlfredTalk

/-! ### Character and string helpers

Small executable models of the JavaScript string primitives used by the
source: `trim`, `split`, `toLowerCase`, `replace` (first occurrence),
`endsWith`, `includes`, and the `/<[^>]+>/g` tag-stripping regex.
-/

/-- Whitespace as recognized by JS `String.prototype.trim` (ASCII part). -/
def isSpaceChar (c : Char) : Bool :=
  c == ' ' || c == '\t' || c == '\n' || c == '\r' || c.val == 11 || c.val == 12

/-- Model of JS `s.trim()` on the character list. -/
def trimChars (l : List Char) : List Char :=
  ((l.dropWhile isSpaceChar).reverse.dropWhile isSpaceChar).reverse

/-- Model of JS `s.trim()` on strings. -/
def trimString (s : String) : String :=
  String.mk (trimChars s.data)

/-- Model of JS `s.split(sep)` for a one-character separator. -/
def splitOnChar (sep : Char) : List Char → List (List Char)
  | [] => [[]]
  | c :: rest =>
    match splitOnChar sep rest with
    | [] => [[c]]
    | g :: gs => if c == sep then [] :: g :: gs else (c :: g) :: gs

/-- Model of JS `s.toLowerCase()` (ASCII range, which is all the source
compares: the literal token "none"). -/
def lowerStr (s : String) : String :=
  String.mk (s.data.map Char.toLower)

/-- Model of JS `f.endsWith(".json")`. -/
def endsWithJson (s : String) : Bool :=
  ".json".data.isSuffixOf s.data

/-- Model of JS `s.includes(sub)` (substring test). -/
def includesStr (s sub : String) : Bool :=
  decide (sub.data <:+: s.data)

/-- Model of JS `s.startsWith(".")`. -/
def startsWithDot (s : String) : Bool :=
  match s.data with
  | '.' :: _ => true
  | _ => false

/-- Model of JS `timeStr.replace(":", "")`: JS `replace` with a string
pattern replaces only the first occurrence. -/
def removeFirstColon : List Char → List Char
  | [] => []
  | c :: rest => if c == ':' then rest else c :: removeFirstColon rest

/-- Model of JS `inboxDir.replace("~", homedir())`: first occurrence only. -/
def replaceFirstTilde (home : List Char) : List Char → List Char
  | [] => []
  | c :: rest => if c == '~' then home ++ rest else c :: replaceFirstTilde home rest

/-- Scan forward to the first `'>'`; return the remainder after it.
Used by the tag stripper below. -/
def findTagClose : List Char → Option (List Char)
  | [] => none
  | c :: rest => if c == '>' then some rest else findTagClose rest

/-- Model of the global regex replace `msg.replace(/<[^>]+>/g, "")`:
at each `'<'` that is followed by at least one non-`'>'` character and
then a `'>'`, the whole bracketed run is dropped; otherwise the `'<'`
is kept and scanning resumes at the next character.  The `fuel`
argument makes the recursion structural; `fuel = length` always
suffices because every step consumes at least one character. -/
def stripTagsFuel : Nat → List Char → List Char
  | 0, l => l
  | _ + 1, [] => []
  | fuel + 1, c :: rest =>
    if c == '<' then
      match rest with
      | [] => ['<']
      | d :: rest2 =>
        if d == '>' then '<' :: stripTagsFuel fuel rest
        else
          match findTagClose (d :: rest2) with
          | some after => stripTagsFuel fuel after
          | none => '<' :: stripTagsFuel fuel rest
    else c :: stripTagsFuel fuel rest

/-- Model of `msg.replace(/<[^>]+>/g, "")` on strings. -/
def stripTags (s : String) : String :=
  String.mk (stripTagsFuel s.data.length s.data)

/-- Model of node `path.join(a, b)` for the simple relative names the
scanner produces (no normalization is ever triggered by them). -/
def joinPath (a b : String) : String := a ++ "/" ++ b

/-- Model of JS `filePath.split("/")`. -/
def splitSlash (s : String) : List String :=
  (splitOnChar '/' s.data).map String.mk

/-! ### Raw webhook payload (the parsed JSON document)

`processTranscript` dereferences these exact key paths:
`data?.data?.user_id ?? data?.user_id ?? ""`,
`data?.data?.conversation_id ?? data?.conversation_id ?? "unknown"`,
`data?.data?.metadata?.call_duration_secs ?? 0`,
`data?.data?.transcript ?? data?.transcript ?? []`, and per turn
`t.role`, `t.message`, `t.time_in_call_secs`.  The structure below has
an `Option` field at every such path (plus the top-level `metadata`
field a flat-shaped payload may carry, which the code never reads);
`none` models an absent (or `null`/`undefined`) key.
-/

structure JsonMetadata where
  call_duration_secs : Option Nat
deriving DecidableEq

structure RawTurn where
  role : Option String
  message : Option String
  time_in_call_secs : Option Nat
deriving DecidableEq

structure JsonInner where
  user_id : Option String
  conversation_id : Option String
  metadata : Option JsonMetadata
  transcript : Option (List RawTurn)
deriving DecidableEq

structure CallJson where
  data : Option JsonInner
  user_id : Option String
  conversation_id : Option String
  metadata : Option JsonMetadata
  transcript : Option (List RawTurn)
deriving DecidableEq

/-- `data?.data?.user_id ?? data?.user_id ?? ""` (index.ts:725). -/
def extractUserPhone (d : CallJson) : String :=
  match d.data.bind JsonInner.user_id with
  | some v => v
  | none => d.user_id.getD ""

/-- `data?.data?.metadata?.call_duration_secs ?? 0` (index.ts:727). -/
def extractCallDuration (d : CallJson) : Nat :=
  ((d.data.bind JsonInner.metadata).bind JsonMetadata.call_duration_secs).getD 0

/-- `data?.data?.conversation_id ?? data?.conversation_id ?? "unknown"` (index.ts:728). -/
def extractConversationId (d : CallJson) : String :=
  match d.data.bind JsonInner.conversation_id with
  | some v => v
  | none => d.conversation_id.getD "unknown"

/-- `data?.data?.transcript ?? data?.transcript ?? []` (index.ts:732). -/
def extractTranscriptTurns (d : CallJson) : List RawTurn :=
  match d.data.bind JsonInner.transcript with
  | some v => v
  | none => d.transcript.getD []

/-! ### Contacts and caller-name resolution -/

/-- Model of the `contacts` configuration object (phone → display name),
looked up as a plain property access. -/
def lookupContact (contacts : List (String × String)) (phone : String) : Option String :=
  (contacts.find? (fun kv => kv.fst == phone)).map Prod.snd

/-- JS `a || b` on strings: `b` when `a` is falsy (the empty string). -/
def jsOrString (a b : String) : String := if a == "" then b else a

/-- `resolveCallerName` (index.ts:215-217):
`contacts[phone] || phone || "Unknown caller"`; an absent key behaves
like the empty string under `||`. -/
def resolveCallerName (phone : String) (contacts : List (String × String)) : String :=
  jsOrString (jsOrString ((lookupContact contacts phone).getD "") phone) "Unknown caller"

/-! ### Normalization of one turn (index.ts:734-742) -/

/-- One iteration of the transcript loop: role mapping, tag stripping,
trimming, and the empty / "none" drop test.  Returns the rendered
dialogue line, or `none` when the turn is dropped. -/
def normalizeTurn (callerName : String) (t : RawTurn) : Option String :=
  let role0 := t.role.getD "?"
  let role := if role0 == "agent" then "Alfred"
    else if role0 == "user" then callerName else role0
  let msg := trimString (stripTags (t.message.getD ""))
  if msg ≠ "" ∧ lowerStr msg ≠ "none" then some (role ++ ": " ++ msg) else none

/-- The `lines` array built by `processTranscript` (index.ts:733-742). -/
def buildLines (callerName : String) (turns : List RawTurn) : List String :=
  turns.filterMap (normalizeTurn callerName)

/-- `durationStr` (index.ts:750-752): `0` is falsy in JS, so zero or
absent duration renders the sentinel. -/
def renderDuration (callDuration : Nat) : String :=
  if callDuration == 0 then "unknown duration"
  else toString (callDuration / 60) ++ "m" ++ toString (callDuration % 60) ++ "s"

/-- `timeStr` (index.ts:755-759): match `/^(\d{2})-(\d{2})-(\d{2})_/`
against the file name; on success render `"HH:MM"`, else `"unknown"`. -/
def timeStrOfFileName (fileName : String) : String :=
  match fileName.data with
  | h1 :: h2 :: '-' :: m1 :: m2 :: '-' :: s1 :: s2 :: '_' :: _ =>
    if h1.isDigit && h2.isDigit && m1.isDigit && m2.isDigit && s1.isDigit && s2.isDigit
    then String.mk [h1, h2, ':', m1, m2]
    else "unknown"
  | _ => "unknown"

/-- `fileName` (index.ts:755): `filePath.split("/").pop() ?? ""`. -/
def fileNameOfPath (filePath : String) : String :=
  ((splitSlash filePath).getLast?).getD ""

/-- `dateStr` (index.ts:760): `filePath.split("/").slice(-2, -1)[0] ?? "unknown"`. -/
def dateStrOfPath (filePath : String) : String :=
  let parts := splitSlash filePath
  if parts.length ≥ 2 then (parts[parts.length - 2]?).getD "unknown"
  else "unknown"

/-! ### Ledger (index.ts:199-213)

The on-disk `.processed` file is modelled by its full contents, a
`String`; a missing file is the empty string.
-/

/-- `loadProcessed` (index.ts:203-209):
`readFileSync(p).trim().split("\n").filter(Boolean)` as a set of lines. -/
def loadProcessed (lf : String) : List String :=
  ((splitOnChar '\n' (trimChars lf.data)).filter (fun g => g ≠ [])).map String.mk

/-- `markProcessed` (index.ts:211-213): append `path + "\n"`. -/
def markProcessed (lf : String) (path : String) : String :=
  lf ++ path ++ "\n"

/-! ### Fan-out dispatch (index.ts:716-833)

Sink calls become trace events.  `SinkOutcomes` is the oracle saying
whether each external call (chat `tools.invoke`, summarizer spawn, the
inbox mkdir+write block) throws; a failing call leaves a `*Fail` event,
which models the `logger.warn` in the corresponding `catch`.
-/

structure SinkOutcomes where
  chatOk : Bool
  summaryOk : Bool
  inboxOk : Bool
deriving DecidableEq

inductive Event where
  | chatSend (msg : String)
  | chatFail
  | summarySpawn (task : String)
  | summaryFail
  | mkdirInbox (dir : String)
  | inboxWrite (path content : String)
  | inboxFail
  | ledgerMark (path : String)
  | scanFail (file : String)
deriving DecidableEq

/-- Plugin configuration slice read by the pipeline, plus the two
environment facts the code branches on (`api.runtime?.tools?.invoke`
truthiness and `existsSync(resolvedInbox)`), and `homedir()`. -/
structure Config where
  contacts : List (String × String)
  inboxDir : Option String
  summaryModel : Option String
  toolsAvailable : Bool
  inboxDirExists : Bool
  home : String

/-- The chat notification text (index.ts:770-773). -/
def chatMessage (callerName timeStr durationStr conversationId transcriptText : String) : String :=
  "📞 *Voice call with " ++ callerName ++ "* (" ++ timeStr ++ ", " ++ durationStr ++ ")\n" ++
  "Conversation: `" ++ conversationId ++ "`\n\n" ++
  "```" ++ transcriptText ++ "```"

/-- The summarizer task text (index.ts:786-791). -/
def summaryTask (callerName durationStr transcriptText : String) : String :=
  "Summarize this phone call in 2-3 sentences. " ++
  "The call was between Alfred (voice agent) and " ++ callerName ++ " (" ++ durationStr ++ "). " ++
  "Cover: what was discussed, any action items or decisions. " ++
  "Reply with ONLY the summary — no preamble.\n\n" ++
  "Transcript:\n" ++ transcriptText

/-- `callerSlug` (index.ts:808): `callerName.toLowerCase().replace(/[^a-z0-9]/g, "-")`. -/
def callerSlug (callerName : String) : String :=
  String.mk ((lowerStr callerName).data.map
    (fun c => if ('a' ≤ c ∧ c ≤ 'z') ∨ ('0' ≤ c ∧ c ≤ '9') then c else '-'))

/-- `inboxFilename` (index.ts:807-809). -/
def inboxFileName (dateStr timeStr callerName : String) : String :=
  "voice-" ++ dateStr ++ "-" ++ String.mk (removeFirstColon timeStr.data) ++ "-" ++
  callerSlug callerName ++ ".md"

/-- The inbox document: frontmatter (index.ts:812-816) plus body
(index.ts:817-820). -/
def inboxContent (dateStr timeStr callerName userPhone durationStr conversationId transcriptText : String) : String :=
  ("---\ntype: voice-transcript\ndate: " ++ dateStr ++ "\n" ++
   "time: \"" ++ timeStr ++ "\"\ncaller: \"" ++ callerName ++ "\"\n" ++
   "phone: \"" ++ userPhone ++ "\"\nduration: \"" ++ durationStr ++ "\"\n" ++
   "conversation_id: \"" ++ conversationId ++ "\"\n---\n") ++
  ("\n# Voice Call — " ++ callerName ++ " (" ++ dateStr ++ " " ++ timeStr ++ ")\n\n" ++
   "Duration: " ++ durationStr ++ " | Caller: " ++ callerName ++ " (" ++ userPhone ++ ")\n\n" ++
   transcriptText ++ "\n")

/-- Sink 1, the chat notifier (index.ts:764-778): guarded by
`tools?.invoke` truthiness; a throwing invoke is caught and logged. -/
def chatBlock (toolsAvailable chatOk : Bool) (msg : String) : List Event :=
  if toolsAvailable then
    if chatOk then [Event.chatSend msg] else [Event.chatFail]
  else []

/-- Sink 2, the summarizer spawn (index.ts:781-801): same guard, same
per-sink `catch`. -/
def summaryBlock (toolsAvailable summaryOk : Bool) (task : String) : List Event :=
  if toolsAvailable then
    if summaryOk then [Event.summarySpawn task] else [Event.summaryFail]
  else []

/-- Sink 3, the inbox writer (index.ts:803-829): only when an inbox
directory is configured; `mkdirSync` runs first when the resolved
directory does not exist, then the file write; the whole block is one
`try`/`catch`. -/
def inboxBlock (cfg : Config) (inboxOk : Bool)
    (dateStr timeStr callerName userPhone durationStr conversationId transcriptText : String) :
    List Event :=
  match cfg.inboxDir with
  | none => []
  | some inboxDir =>
    let resolvedInbox := String.mk (replaceFirstTilde cfg.home.data inboxDir.data)
    let inboxPath := joinPath resolvedInbox (inboxFileName dateStr timeStr callerName)
    if inboxOk then
      (if cfg.inboxDirExists then [] else [Event.mkdirInbox resolvedInbox]) ++
      [Event.inboxWrite inboxPath
        (inboxContent dateStr timeStr callerName userPhone durationStr conversationId transcriptText)]
    else [Event.inboxFail]

/-- The trace of events emitted by `processTranscript` (index.ts:722-832)
once `JSON.parse` has succeeded on the file contents `d`.  With an
empty normalized dialogue the entry is marked and nothing else happens
(index.ts:744-747); otherwise the three sinks run in order, each inside
its own `try`/`catch`, and the ledger mark follows unconditionally. -/
def buildEvents (cfg : Config) (o : SinkOutcomes) (filePath : String) (d : CallJson) : List Event :=
  let userPhone := extractUserPhone d
  let callerName := resolveCallerName userPhone cfg.contacts
  let conversationId := extractConversationId d
  let lines := buildLines callerName (extractTranscriptTurns d)
  if lines.isEmpty then [Event.ledgerMark filePath]
  else
    let transcriptText := String.intercalate "\n" lines
    let durationStr := renderDuration (extractCallDuration d)
    let timeStr := timeStrOfFileName (fileNameOfPath filePath)
    let dateStr := dateStrOfPath filePath
    chatBlock cfg.toolsAvailable o.chatOk
      (chatMessage callerName timeStr durationStr conversationId transcriptText) ++
    summaryBlock cfg.toolsAvailable o.summaryOk
      (summaryTask callerName durationStr transcriptText) ++
    inboxBlock cfg o.inboxOk dateStr timeStr callerName userPhone durationStr conversationId
      transcriptText ++
    [Event.ledgerMark filePath]

/-- `processTranscript` (index.ts:716-833).  `content = none` models a
file whose read or `JSON.parse` throws (index.ts:722); the exception
propagates to the scanner.  Otherwise the event trace is emitted and
the ledger file gains the entry's path. -/
def processTranscript (cfg : Config) (o : SinkOutcomes) (filePath : String)
    (content : Option CallJson) (lf : String) : Except String (List Event × String) :=
  match content with
  | none => Except.error "Unexpected token in JSON"
  | some d => Except.ok (buildEvents cfg o filePath d, markProcessed lf filePath)

/-! ### The poller scan (index.ts:687-714)

The mailbox directory tree is a list of `Bucket`s in `readdirSync`
order; each bucket's `listing` is its own `readdirSync` result, with
`none` modelling a throwing `readdirSync` (the `catch`/`continue` at
index.ts:699-701).  A file entry's `content` is `none` when reading or
parsing it throws.
-/

structure FileEntry where
  name : String
  content : Option CallJson
deriving DecidableEq

structure Bucket where
  name : String
  listing : Option (List FileEntry)
deriving DecidableEq

/-- Lexicographic comparison of two character lists by code point, the
order JS `Array.prototype.sort()`'s default comparator applies to
strings (code-unit order; identical on the names involved here). -/
def lexLtChars : List Char → List Char → Bool
  | [], [] => false
  | [], _ :: _ => true
  | _ :: _, [] => false
  | a :: as, b :: bs =>
    if a.toNat < b.toNat then true else if b.toNat < a.toNat then false else lexLtChars as bs

/-- The non-strict form of the JS default string comparison. -/
def strLeB (a b : String) : Bool := !(lexLtChars b.data a.data)

/-- `readdirSync(transcriptDir).sort().reverse()` (index.ts:692):
stable ascending sort by the default string comparator, then reversed,
giving lexicographically descending bucket order. -/
def sortBucketsDesc (dirs : List Bucket) : List Bucket :=
  (dirs.insertionSort (fun a b => strLeB a.name b.name = true)).reverse

/-- The inner entry loop (index.ts:703-712): skip entries in the loaded
ledger snapshot, otherwise run `processTranscript`, catching and logging
a per-entry failure without aborting the rest. -/
def scanEntries (cfg : Config) (o : String → SinkOutcomes) (datePath : String)
    (processed : List String) : List FileEntry → String → List Event × String
  | [], lf => ([], lf)
  | e :: es, lf =>
    let filePath := joinPath datePath e.name
    if processed.contains filePath then scanEntries cfg o datePath processed es lf
    else
      match processTranscript cfg (o filePath) filePath e.content lf with
      | Except.ok r0 =>
        let r := scanEntries cfg o datePath processed es r0.snd
        (r0.fst ++ r.fst, r.snd)
      | Except.error _ =>
        let r := scanEntries cfg o datePath processed es lf
        (Event.scanFail e.name :: r.fst, r.snd)

/-- The outer bucket loop (index.ts:692-713): dotfiles are skipped, an
unreadable bucket is skipped, `.json` files are selected. -/
def scanBuckets (cfg : Config) (o : String → SinkOutcomes) (tDir : String)
    (processed : List String) : List Bucket → String → List Event × String
  | [], lf => ([], lf)
  | b :: bs, lf =>
    if startsWithDot b.name then scanBuckets cfg o tDir processed bs lf
    else
      match b.listing with
      | none => scanBuckets cfg o tDir processed bs lf
      | some files =>
        let r1 := scanEntries cfg o (joinPath tDir b.name) processed
          (files.filter (fun f => endsWithJson f.name)) lf
        let r2 := scanBuckets cfg o tDir processed bs r1.snd
        (r1.fst ++ r2.fst, r2.snd)

/-- `scanAndProcessTranscripts` (index.ts:687-714): load the ledger
snapshot once, then walk buckets newest-first.  `tDirExists` models the
`existsSync(transcriptDir)` guard. -/
def runScan (cfg : Config) (o : String → SinkOutcomes) (tDirExists : Bool)
    (tDir : String) (dirs : List Bucket) (lf : String) : List Event × String :=
  if tDirExists then
    scanBuckets cfg o tDir (loadProcessed lf) (sortBucketsDesc dirs) lf
  else ([], lf)

/-- Repeated poller ticks: the ledger file evolves, the mailbox does not. -/
def iterScan (cfg : Config) (o : String → SinkOutcomes) (tDir : String)
    (dirs : List Bucket) : Nat → String → String
  | 0, lf => lf
  | k + 1, lf => iterScan cfg o tDir dirs k (runScan cfg o true tDir dirs lf).snd

/-! ### The `get_transcript` query (index.ts:886-934) -/

inductive QueryResult where
  | found (conversationId caller transcript : String)
  | notFound (conversationId : String)
  | dirMissing
deriving DecidableEq

/-- `String(s).padStart(2, "0")` for a second count below 60. -/
def pad2 (n : Nat) : String :=
  if n < 10 then "0" ++ toString n else toString n

/-- One turn of the `get_transcript` rendering (index.ts:903-915): note
it trims but does not strip tags and does not drop "none". -/
def renderQueryTurn (callerName : String) (t : RawTurn) : Option String :=
  let role0 := t.role.getD "?"
  let role := if role0 == "agent" then "Alfred"
    else if role0 == "user" then callerName else role0
  let ts := t.time_in_call_secs.getD 0
  let msg := trimString (t.message.getD "")
  if msg ≠ "" then
    some ("[" ++ toString (ts / 60) ++ ":" ++ pad2 (ts % 60) ++ "] " ++ role ++ ": " ++ msg)
  else none

/-- The result object built at index.ts:916-925. -/
def renderQueryResult (contacts : List (String × String)) (conversationId : String)
    (d : CallJson) : QueryResult :=
  let callerName := resolveCallerName (extractUserPhone d) contacts
  QueryResult.found conversationId callerName
    (String.intercalate "\n" ((extractTranscriptTurns d).filterMap (renderQueryTurn callerName)))

/-- The file test at index.ts:899:
`file.includes(conversationId) && file.endsWith(".json")`, first match
wins; the matched file's parse result is surfaced so a throwing parse
can abort the bucket. -/
def findMatchFile (conversationId : String) : List FileEntry → Option (Option CallJson)
  | [] => none
  | e :: es =>
    if includesStr e.name conversationId && endsWithJson e.name then some e.content
    else findMatchFile conversationId es

/-- The bucket loop of `getTranscript` (index.ts:894-931).  A parse
error inside a bucket is caught by the per-bucket `try` and skips to
the next bucket. -/
def getTranscriptGo (contacts : List (String × String)) (conversationId : String) :
    List Bucket → QueryResult
  | [] => QueryResult.notFound conversationId
  | b :: bs =>
    if startsWithDot b.name then getTranscriptGo contacts conversationId bs
    else
      match b.listing with
      | none => getTranscriptGo contacts conversationId bs
      | some files =>
        match findMatchFile conversationId files with
        | some (some d) => renderQueryResult contacts conversationId d
        | some none => getTranscriptGo contacts conversationId bs
        | none => getTranscriptGo contacts conversationId bs

/-- `getTranscript` (index.ts:886-934). -/
def getTranscript (tDirExists : Bool) (dirs : List Bucket) (conversationId : String)
    (contacts : List (String × String)) : QueryResult :=
  if tDirExists then getTranscriptGo contacts conversationId (sortBucketsDesc dirs)
  else QueryResult.dirMissing

/-! ### Specification-side descriptions of the scan

Closed-form descriptions of what one scan emits and marks, stated as
plain list comprehensions over the mailbox snapshot.  The theorems
below prove the recursive scanner equal to these.
-/

/-- The ledger paths appearing in a trace, in order. -/
def marksOf (evs : List Event) : List String :=
  evs.filterMap (fun e => match e with | Event.ledgerMark p => some p | _ => none)

/-- The trace one bucket's entry list contributes, as a flat map. -/
def entryEvents (cfg : Config) (o : String → SinkOutcomes) (datePath : String)
    (processed : List String) (es : List FileEntry) : List Event :=
  es.flatMap (fun e =>
    if processed.contains (joinPath datePath e.name) then []
    else match e.content with
      | some d => buildEvents cfg (o (joinPath datePath e.name)) (joinPath datePath e.name) d
      | none => [Event.scanFail e.name])

/-- The trace one bucket contributes. -/
def bucketEvents (cfg : Config) (o : String → SinkOutcomes) (tDir : String)
    (processed : List String) (b : Bucket) : List Event :=
  if startsWithDot b.name then []
  else
    match b.listing with
    | none => []
    | some files =>
      entryEvents cfg o (joinPath tDir b.name) processed
        (files.filter (fun f => endsWithJson f.name))

/-- The paths one bucket's entry list marks: the `.json` entries that
are not in the loaded snapshot and whose contents parse, in listing
order. -/
def entryMarks (datePath : String) (processed : List String) (es : List FileEntry) :
    List String :=
  es.filterMap (fun e =>
    if processed.contains (joinPath datePath e.name) then none
    else match e.content with
      | some _ => some (joinPath datePath e.name)
      | none => none)

/-- The paths one bucket marks. -/
def bucketMarks (tDir : String) (processed : List String) (b : Bucket) : List String :=
  if startsWithDot b.name then []
  else
    match b.listing with
    | none => []
    | some files =>
      entryMarks (joinPath tDir b.name) processed (files.filter (fun f => endsWithJson f.name))

/-- All paths one scan marks, buckets taken newest-first. -/
def scanMarks (tDir : String) (processed : List String) (dirs : List Bucket) : List String :=
  (sortBucketsDesc dirs).flatMap (bucketMarks tDir processed)

/-- Appending a batch of ledger marks. -/
def foldMark (lf : String) (paths : List String) : String :=
  paths.foldl markProcessed lf

/-! ### Well-formed ledger files

A reachable `.processed` file is a concatenation of records, each a
nonempty newline-free path terminated by a newline.  Because
`loadProcessed` trims the whole file, we also record that a path's
first and last characters are not whitespace (true of every path the
scanner writes: it starts with the transcript-dir prefix and ends in
`".json"`).
-/

/-- A string fit to be one ledger record. -/
def goodRecB (p : List Char) : Bool :=
  !p.isEmpty && !p.contains '\n' &&
  (match p.head? with | some c => !isSpaceChar c | none => true) &&
  (match p.getLast? with | some c => !isSpaceChar c | none => true)

/-- The byte content of a ledger file holding exactly the records `ps`. -/
def flattenRecs (ps : List (List Char)) : List Char :=
  (ps.map (fun p => p ++ ['\n'])).flatten

/-- Records joined by single newlines, no trailing newline. -/
def intercalNl : List (List Char) → List Char
  | [] => []
  | [p] => p
  | p :: ps => p ++ '\n' :: intercalNl ps

/-- The ledger file `lf` consists exactly of the good records `ps`. -/
def LedgerRep (lf : String) (ps : List (List Char)) : Prop :=
  lf.data = flattenRecs ps ∧ ∀ p ∈ ps, goodRecB p = true

/-- A transcript-dir string that yields well-formed ledger records:
no newline, and not starting with whitespace. -/
def goodDirB (s : String) : Bool :=
  !s.data.contains '\n' &&
  (match s.data.head? with | some c => !isSpaceChar c | none => true)

/-- A directory-entry name that yields well-formed ledger records. -/
def goodNameB (s : String) : Bool :=
  !s.data.contains '\n'

def goodBucketB (b : Bucket) : Bool :=
  goodNameB b.name &&
  (match b.listing with
   | none => true
   | some fs => fs.all (fun e => goodNameB e.name))

def goodDirsB (dirs : List Bucket) : Bool :=
  dirs.all goodBucketB

/-- The `.json` directory entries the query loop can reach, in its
traversal order: buckets newest-first, files in listing order.  (The
query loop tests `endsWith(".json")` per file rather than pre-filtering,
so this keeps all files and the match predicate carries the test.) -/
def eligibleFiles (dirs : List Bucket) : List FileEntry :=
  (sortBucketsDesc dirs).flatMap (fun b =>
    if startsWithDot b.name then []
    else
      match b.listing with
      | none => []
      | some files => files)

/-! ### Concrete fixtures used by witnesses and counterexamples -/

def cfgSample : Config :=
  { contacts := [("+34612345678", "Mom")], inboxDir := some "~/vault/inbox",
    summaryModel := none, toolsAvailable := true, inboxDirExists := false,
    home := "/home/u" }

def allSinksOk : String → SinkOutcomes := fun _ => ⟨true, true, true⟩

def chatAndInboxFail : SinkOutcomes := ⟨false, true, false⟩

/-- A user turn saying "yo" 61 seconds into the call. -/
def yoTurn : RawTurn := { role := some "user", message := some "yo", time_in_call_secs := some 61 }

/-- An agent turn saying "hi" at the start of the call. -/
def hiTurn : RawTurn := { role := some "agent", message := some "hi", time_in_call_secs := some 0 }

/-- A turn whose message normalizes to nothing: tags plus the "none" token. -/
def noneTurn : RawTurn :=
  { role := some "user", message := some " <typing> None ", time_in_call_secs := none }

/-- A payload in the nested provider shape (everything under `data`). -/
def nestedShapeRecord : CallJson :=
  { data := some { user_id := some "+34612345678", conversation_id := some "conv-1", metadata := some { call_duration_secs := some 125 }, transcript := some [yoTurn] },
    user_id := none, conversation_id := none, metadata := none, transcript := none }

/-- A payload in the flat provider shape (everything top-level),
including a 125-second duration under the top-level `metadata`. -/
def flatShapeRecord : CallJson :=
  { data := none, user_id := some "+34612345678", conversation_id := some "conv-flat",
    metadata := some { call_duration_secs := some 125 }, transcript := some [hiTurn] }

/-- A parsed payload whose only turn is dropped by normalization. -/
def emptyDialogueRecord : CallJson :=
  { data := none, user_id := some "+1", conversation_id := some "conv-empty", metadata := none,
    transcript := some [noneTurn] }

/-- The call whose conversation id `abcd` contains `abc` as a substring. -/
def superstringRecord : CallJson :=
  { data := some { user_id := some "+10000000001", conversation_id := some "abcd", metadata := none, transcript := some [hiTurn] },
    user_id := none, conversation_id := none, metadata := none, transcript := none }

/-- The call whose conversation id is exactly `abc`. -/
def exactRecord : CallJson :=
  { data := some { user_id := some "+34612345678", conversation_id := some "abc", metadata := none, transcript := some [yoTurn] },
    user_id := none, conversation_id := none, metadata := none, transcript := none }

def sameBucketMailbox : List Bucket :=
  [{ name := "2024-03-01",
     listing := some [{ name := "07-00-00_abc.json", content := some exactRecord },
                      { name := "09-00-00_xyz.json", content := some nestedShapeRecord }] }]

def queryMailbox : List Bucket :=
  [{ name := "2024-03-01",
     listing := some [{ name := "10-00-00_abcd.json", content := some superstringRecord },
                      { name := "09-00-00_abc.json", content := some exactRecord }] }]

def failMailbox : List Bucket :=
  [{ name := "2024-03-02",
     listing := some [{ name := "08-00-00_bad.json", content := none }] },
   { name := "2024-03-01",
     listing := some [{ name := "07-00-00_abc.json", content := some exactRecord }] }]

/-! ## Lemmas: strings, splitting, trimming -/

theorem slash_data : "/".data = ['/'] := rfl

theorem newline_data : "\n".data = ['\n'] := rfl

theorem mk_data (s : String) : String.mk s.data = s := rfl

theorem joinPath_data (a b : String) : (joinPath a b).data = a.data ++ '/' :: b.data := by
  show ((a ++ "/") ++ b).data = _
  rw [String.data_append, String.data_append, slash_data]
  simp

theorem contains_true_iff {α : Type _} [BEq α] [LawfulBEq α] {l : List α} {a : α} :
    l.contains a = true ↔ a ∈ l := List.elem_iff

theorem contains_false_iff {α : Type _} [BEq α] [LawfulBEq α] {l : List α} {a : α} :
    l.contains a = false ↔ a ∉ l := by
  rw [← Bool.not_eq_true, not_iff_not]
  exact List.elem_iff

theorem splitOnChar_ne_nil (sep : Char) (l : List Char) : splitOnChar sep l ≠ [] := by
  cases l with
  | nil => simp [splitOnChar]
  | cons c rest =>
    simp only [splitOnChar]
    cases hs : splitOnChar sep rest with
    | nil => simp
    | cons g gs => by_cases hc : c == sep <;> simp [hc]

theorem splitOnChar_append (sep : Char) (x y : List Char) :
    splitOnChar sep (x ++ sep :: y) = splitOnChar sep x ++ splitOnChar sep y := by
  induction x with
  | nil =>
    simp only [List.nil_append, splitOnChar]
    cases hs : splitOnChar sep y with
    | nil => exact absurd hs (splitOnChar_ne_nil sep y)
    | cons g gs => simp
  | cons c x ih =>
    rcases h : splitOnChar sep x with _ | ⟨g, gs⟩
    · exact absurd h (splitOnChar_ne_nil sep x)
    · rcases h2 : splitOnChar sep y with _ | ⟨g2, gs2⟩
      · exact absurd h2 (splitOnChar_ne_nil sep y)
      · by_cases hc : c = sep <;>
          simp [splitOnChar, ih, h, h2, hc]

theorem splitOnChar_of_not_mem {sep : Char} {l : List Char} (h : sep ∉ l) :
    splitOnChar sep l = [l] := by
  induction l with
  | nil => rfl
  | cons c rest ih =>
    have hc : ¬(c = sep) := fun he => h (he ▸ List.mem_cons_self c rest)
    have hr : sep ∉ rest := fun hm => h (List.mem_cons_of_mem _ hm)
    simp [splitOnChar, ih hr, hc]

theorem dropWhile_eq_self_of_head {p : Char → Bool} {l : List Char}
    (h : ∀ c, l.head? = some c → p c = false) : l.dropWhile p = l := by
  cases l with
  | nil => rfl
  | cons c rest => simp [List.dropWhile_cons, h c rfl]

theorem trimChars_concat_newline {x : List Char} (hne : x ≠ [])
    (hh : ∀ c, x.head? = some c → isSpaceChar c = false)
    (hl : ∀ c, x.getLast? = some c → isSpaceChar c = false) :
    trimChars (x ++ ['\n']) = x := by
  unfold trimChars
  have h1 : (x ++ ['\n']).dropWhile isSpaceChar = x ++ ['\n'] := by
    apply dropWhile_eq_self_of_head
    intro c hc
    cases x with
    | nil => exact absurd rfl hne
    | cons a t =>
      simp only [List.cons_append, List.head?_cons, Option.some.injEq] at hc
      exact hc ▸ hh a rfl
  rw [h1]
  have h2 : (x ++ ['\n']).reverse = '\n' :: x.reverse := by simp
  rw [h2]
  have h3 : List.dropWhile isSpaceChar ('\n' :: x.reverse) =
      List.dropWhile isSpaceChar x.reverse := by
    simp [List.dropWhile_cons, isSpaceChar]
  rw [h3]
  have h4 : List.dropWhile isSpaceChar x.reverse = x.reverse := by
    apply dropWhile_eq_self_of_head
    intro c hc
    rw [List.head?_reverse] at hc
    exact hl c hc
  rw [h4, List.reverse_reverse]

/-! ## Lemmas: ledger file representation -/

theorem goodRec_spec {p : List Char} (h : goodRecB p = true) :
    p ≠ [] ∧ '\n' ∉ p ∧ (∀ c, p.head? = some c → isSpaceChar c = false) ∧
      (∀ c, p.getLast? = some c → isSpaceChar c = false) := by
  unfold goodRecB at h
  rw [Bool.and_eq_true, Bool.and_eq_true, Bool.and_eq_true] at h
  obtain ⟨⟨⟨h1, h2⟩, h3⟩, h4⟩ := h
  refine ⟨by simpa using h1, ?_, ?_, ?_⟩
  · intro hm
    rw [Bool.not_eq_true'] at h2
    exact (contains_false_iff.1 h2) hm
  · intro c hc
    rw [hc] at h3
    simpa using h3
  · intro c hc
    rw [hc] at h4
    simpa using h4

theorem flattenRecs_append (ps qs : List (List Char)) :
    flattenRecs (ps ++ qs) = flattenRecs ps ++ flattenRecs qs := by
  simp [flattenRecs]

theorem flattenRecs_eq_intercal : ∀ ps : List (List Char), ps ≠ [] →
    flattenRecs ps = intercalNl ps ++ ['\n']
  | [], h => absurd rfl h
  | [p], _ => by simp [flattenRecs, intercalNl]
  | p :: q :: ps, _ => by
    have ih := flattenRecs_eq_intercal (q :: ps) (by simp)
    have h1 : flattenRecs (p :: q :: ps) = (p ++ ['\n']) ++ flattenRecs (q :: ps) := by
      simp [flattenRecs]
    have h2 : intercalNl (p :: q :: ps) = p ++ '\n' :: intercalNl (q :: ps) := rfl
    rw [h1, ih, h2]
    simp

theorem intercalNl_ne_nil : ∀ {ps : List (List Char)}, ps ≠ [] → (∀ p ∈ ps, p ≠ []) →
    intercalNl ps ≠ []
  | [], h, _ => absurd rfl h
  | [p], _, hp => by simpa [intercalNl] using hp p (by simp)
  | p :: q :: ps, _, hp => by
    have hp0 : p ≠ [] := hp p (by simp)
    simp only [intercalNl, ne_eq, List.append_eq_nil]
    exact fun he => absurd he.1 hp0

theorem intercalNl_head? : ∀ {ps : List (List Char)} {p : List Char} {rest : List (List Char)},
    ps = p :: rest → p ≠ [] → (intercalNl ps).head? = p.head?
  | _, p, [], rfl, _ => rfl
  | _, p, q :: rest, rfl, hp => by
    cases p with
    | nil => exact absurd rfl hp
    | cons a t => simp [intercalNl]

theorem intercalNl_getLast? : ∀ {ps : List (List Char)}, ps ≠ [] → (∀ p ∈ ps, p ≠ []) →
    ∃ p ∈ ps, (intercalNl ps).getLast? = p.getLast?
  | [], h, _ => absurd rfl h
  | [p], _, _ => ⟨p, by simp, rfl⟩
  | p :: q :: ps, _, hp => by
    obtain ⟨r, hr, hlast⟩ := @intercalNl_getLast? (q :: ps) (by simp)
      (fun x hx => hp x (List.mem_cons_of_mem _ hx))
    refine ⟨r, List.mem_cons_of_mem _ hr, ?_⟩
    have hne : intercalNl (q :: ps) ≠ [] :=
      intercalNl_ne_nil (by simp) (fun x hx => hp x (List.mem_cons_of_mem _ hx))
    have hc := List.getLast?_eq_getLast _ hne
    rw [show intercalNl (p :: q :: ps) = p ++ '\n' :: intercalNl (q :: ps) from rfl,
      show ('\n' :: intercalNl (q :: ps)) = ['\n'] ++ intercalNl (q :: ps) from rfl,
      List.getLast?_append, List.getLast?_append, hc]
    show some _ = _
    exact (hlast ▸ hc).symm

theorem splitOnChar_intercalNl : ∀ {ps : List (List Char)}, ps ≠ [] →
    (∀ p ∈ ps, '\n' ∉ p) → splitOnChar '\n' (intercalNl ps) = ps
  | [], h, _ => absurd rfl h
  | [p], _, hp => by
    simp [intercalNl, splitOnChar_of_not_mem (hp p (by simp))]
  | p :: q :: ps, _, hp => by
    have ih := @splitOnChar_intercalNl (q :: ps) (by simp)
      (fun x hx => hp x (List.mem_cons_of_mem _ hx))
    rw [show intercalNl (p :: q :: ps) = p ++ '\n' :: intercalNl (q :: ps) from rfl,
      splitOnChar_append, ih, splitOnChar_of_not_mem (hp p (by simp))]
    rfl

theorem loadProcessed_rep {lf : String} {ps : List (List Char)} (h : LedgerRep lf ps) :
    loadProcessed lf = ps.map String.mk := by
  obtain ⟨hdata, hgood⟩ := h
  cases ps with
  | nil =>
    have hd0 : lf.data = [] := by simpa [flattenRecs] using hdata
    simp [loadProcessed, hd0, trimChars, splitOnChar]
  | cons p ps =>
    have hall := fun x hx => goodRec_spec (hgood x hx)
    have hne : (p :: ps) ≠ ([] : List (List Char)) := by simp
    have hnil : ∀ x ∈ p :: ps, x ≠ [] := fun x hx => (hall x hx).1
    have hflat : lf.data = intercalNl (p :: ps) ++ ['\n'] := by
      rw [hdata, flattenRecs_eq_intercal _ hne]
    have hhd : ∀ c, (intercalNl (p :: ps)).head? = some c → isSpaceChar c = false := by
      intro c hc
      rw [intercalNl_head? rfl ((hall p (by simp)).1)] at hc
      exact (hall p (by simp)).2.2.1 c hc
    have hlast : ∀ c, (intercalNl (p :: ps)).getLast? = some c → isSpaceChar c = false := by
      intro c hc
      obtain ⟨r, hr, hrl⟩ := intercalNl_getLast? hne hnil
      rw [hrl] at hc
      exact (hall r hr).2.2.2 c hc
    have htrim : trimChars lf.data = intercalNl (p :: ps) := by
      rw [hflat]
      exact trimChars_concat_newline (intercalNl_ne_nil hne hnil) hhd hlast
    unfold loadProcessed
    rw [htrim, splitOnChar_intercalNl hne (fun x hx => (hall x hx).2.1),
      List.filter_eq_self.mpr (fun a ha => by simpa using hnil a ha)]

theorem rep_mark {lf : String} {ps : List (List Char)} (h : LedgerRep lf ps) {x : String}
    (hx : goodRecB x.data = true) :
    LedgerRep (markProcessed lf x) (ps ++ [x.data]) := by
  obtain ⟨hdata, hgood⟩ := h
  constructor
  · show (lf ++ x ++ "\n").data = _
    rw [String.data_append, String.data_append, hdata, flattenRecs_append, newline_data]
    simp [flattenRecs]
  · intro p hp
    rcases List.mem_append.1 hp with h | h
    · exact hgood p h
    · rw [List.mem_singleton.1 h]
      exact hx

theorem rep_foldMark {lf : String} {ps : List (List Char)} {l : List String}
    (h : LedgerRep lf ps) (hl : ∀ x ∈ l, goodRecB x.data = true) :
    LedgerRep (foldMark lf l) (ps ++ l.map String.data) := by
  induction l generalizing lf ps with
  | nil => simpa [foldMark] using h
  | cons x xs ih =>
    have h1 := rep_mark h (hl x (by simp))
    have h2 := ih h1 (fun y hy => hl y (List.mem_cons_of_mem _ hy))
    simpa [foldMark, List.foldl_cons] using h2

theorem loadProcessed_foldMark {lf : String} {ps : List (List Char)} {l : List String}
    (h : LedgerRep lf ps) (hl : ∀ x ∈ l, goodRecB x.data = true) :
    loadProcessed (foldMark lf l) = loadProcessed lf ++ l := by
  rw [loadProcessed_rep (rep_foldMark h hl), loadProcessed_rep h]
  simp [Function.comp_def, mk_data]

/-! ## Lemmas: the trace of one scan -/

theorem marksOf_append (a b : List Event) : marksOf (a ++ b) = marksOf a ++ marksOf b := by
  simp [marksOf]

theorem marksOf_chatBlock (t c : Bool) (m : String) : marksOf (chatBlock t c m) = [] := by
  cases t <;> cases c <;> simp [chatBlock, marksOf]

theorem marksOf_summaryBlock (t s : Bool) (m : String) : marksOf (summaryBlock t s m) = [] := by
  cases t <;> cases s <;> simp [summaryBlock, marksOf]

theorem marksOf_inboxBlock (cfg : Config) (io : Bool) (a b c d e f g : String) :
    marksOf (inboxBlock cfg io a b c d e f g) = [] := by
  unfold inboxBlock
  cases cfg.inboxDir <;> cases io <;> cases cfg.inboxDirExists <;> simp [marksOf]

theorem marksOf_buildEvents (cfg : Config) (o : SinkOutcomes) (p : String) (d : CallJson) :
    marksOf (buildEvents cfg o p d) = [p] := by
  simp only [buildEvents]
  split
  · simp [marksOf]
  · simp only [marksOf_append, marksOf_chatBlock, marksOf_summaryBlock, marksOf_inboxBlock,
      List.nil_append]
    simp [marksOf]

theorem buildEvents_getLast (cfg : Config) (o : SinkOutcomes) (p : String) (d : CallJson) :
    (buildEvents cfg o p d).getLast? = some (Event.ledgerMark p) := by
  simp only [buildEvents]
  split
  · rfl
  · exact List.getLast?_concat _

theorem scanEntries_fst (cfg : Config) (o : String → SinkOutcomes) (dp : String)
    (pr : List String) : ∀ (es : List FileEntry) (lf : String),
    (scanEntries cfg o dp pr es lf).fst = entryEvents cfg o dp pr es := by
  intro es
  induction es with
  | nil => intro lf; rfl
  | cons e es ih =>
    intro lf
    by_cases hm : joinPath dp e.name ∈ pr
    · have hc : pr.contains (joinPath dp e.name) = true := contains_true_iff.2 hm
      simp [scanEntries, entryEvents, List.flatMap_cons, hc, hm, ih]
    · have hc : pr.contains (joinPath dp e.name) = false := contains_false_iff.2 hm
      cases h : e.content with
      | none => simp [scanEntries, entryEvents, List.flatMap_cons, hc, hm, h, processTranscript, ih]
      | some d => simp [scanEntries, entryEvents, List.flatMap_cons, hc, hm, h, processTranscript, ih]

theorem scanEntries_snd (cfg : Config) (o : String → SinkOutcomes) (dp : String)
    (pr : List String) : ∀ (es : List FileEntry) (lf : String),
    (scanEntries cfg o dp pr es lf).snd = foldMark lf (entryMarks dp pr es) := by
  intro es
  induction es with
  | nil => intro lf; rfl
  | cons e es ih =>
    intro lf
    by_cases hm : joinPath dp e.name ∈ pr
    · have hc : pr.contains (joinPath dp e.name) = true := contains_true_iff.2 hm
      simp [scanEntries, entryMarks, hc, hm, ih]
    · have hc : pr.contains (joinPath dp e.name) = false := contains_false_iff.2 hm
      cases h : e.content with
      | none => simp [scanEntries, entryMarks, hc, hm, h, processTranscript, ih]
      | some d =>
        simp [scanEntries, entryMarks, hc, hm, h, processTranscript, ih, foldMark, List.foldl_cons]

theorem scanBuckets_fst (cfg : Config) (o : String → SinkOutcomes) (tDir : String)
    (pr : List String) : ∀ (bs : List Bucket) (lf : String),
    (scanBuckets cfg o tDir pr bs lf).fst = bs.flatMap (bucketEvents cfg o tDir pr) := by
  intro bs
  induction bs with
  | nil => intro lf; rfl
  | cons b bs ih =>
    intro lf
    by_cases hdot : startsWithDot b.name
    · simp [scanBuckets, bucketEvents, List.flatMap_cons, hdot, ih]
    · cases h : b.listing with
      | none => simp [scanBuckets, bucketEvents, List.flatMap_cons, hdot, h, ih]
      | some files =>
        simp [scanBuckets, bucketEvents, List.flatMap_cons, hdot, h, ih, scanEntries_fst]

theorem scanBuckets_snd (cfg : Config) (o : String → SinkOutcomes) (tDir : String)
    (pr : List String) : ∀ (bs : List Bucket) (lf : String),
    (scanBuckets cfg o tDir pr bs lf).snd = foldMark lf (bs.flatMap (bucketMarks tDir pr)) := by
  intro bs
  induction bs with
  | nil => intro lf; rfl
  | cons b bs ih =>
    intro lf
    by_cases hdot : startsWithDot b.name
    · simp [scanBuckets, bucketMarks, List.flatMap_cons, hdot, ih]
    · cases h : b.listing with
      | none => simp [scanBuckets, bucketMarks, List.flatMap_cons, hdot, h, ih]
      | some files =>
        simp [scanBuckets, bucketMarks, List.flatMap_cons, hdot, h, ih, scanEntries_snd,
          foldMark, List.foldl_append]

theorem runScan_fst (cfg : Config) (o : String → SinkOutcomes) (tDir : String)
    (dirs : List Bucket) (lf : String) :
    (runScan cfg o true tDir dirs lf).fst =
      (sortBucketsDesc dirs).flatMap (bucketEvents cfg o tDir (loadProcessed lf)) := by
  simp [runScan, scanBuckets_fst]

theorem runScan_snd (cfg : Config) (o : String → SinkOutcomes) (tDir : String)
    (dirs : List Bucket) (lf : String) :
    (runScan cfg o true tDir dirs lf).snd =
      foldMark lf (scanMarks tDir (loadProcessed lf) dirs) := by
  simp [runScan, scanBuckets_snd, scanMarks]

/-! ## Lemmas: membership in marks and events -/

theorem mem_sortBucketsDesc {dirs : List Bucket} {b : Bucket} :
    b ∈ sortBucketsDesc dirs ↔ b ∈ dirs := by
  unfold sortBucketsDesc
  rw [List.mem_reverse]
  exact (List.perm_insertionSort _ dirs).mem_iff

theorem of_mem_entryMarks {dp : String} {pr : List String} {es : List FileEntry} {q : String}
    (h : q ∈ entryMarks dp pr es) :
    ∃ e ∈ es, (∃ d, e.content = some d) ∧ q = joinPath dp e.name ∧ q ∉ pr := by
  obtain ⟨e, he, hfe⟩ := List.mem_filterMap.1 h
  refine ⟨e, he, ?_⟩
  by_cases hm : joinPath dp e.name ∈ pr
  · rw [if_pos (contains_true_iff.2 hm)] at hfe
    exact absurd hfe (by simp)
  · rw [if_neg (by rw [contains_false_iff.2 hm]; simp)] at hfe
    cases hc : e.content with
    | none => rw [hc] at hfe; exact absurd hfe (by simp)
    | some d =>
      rw [hc] at hfe
      exact ⟨⟨d, rfl⟩, (Option.some.inj hfe).symm, fun hq => hm ((Option.some.inj hfe) ▸ hq)⟩

theorem mem_entryMarks_of {dp : String} {pr : List String} {es : List FileEntry}
    {e : FileEntry} (he : e ∈ es) {d : CallJson} (hd : e.content = some d)
    (hnp : joinPath dp e.name ∉ pr) :
    joinPath dp e.name ∈ entryMarks dp pr es := by
  refine List.mem_filterMap.2 ⟨e, he, ?_⟩
  rw [if_neg (by rw [contains_false_iff.2 hnp]; simp), hd]

theorem of_mem_bucketMarks {tDir : String} {pr : List String} {b : Bucket} {q : String}
    (h : q ∈ bucketMarks tDir pr b) :
    startsWithDot b.name = false ∧ ∃ fs, b.listing = some fs ∧
      ∃ e ∈ fs, endsWithJson e.name = true ∧ (∃ d, e.content = some d) ∧
        q = joinPath (joinPath tDir b.name) e.name ∧ q ∉ pr := by
  unfold bucketMarks at h
  by_cases hdot : startsWithDot b.name
  · rw [if_pos hdot] at h
    exact absurd h (by simp)
  · rw [if_neg hdot] at h
    cases hl : b.listing with
    | none => rw [hl] at h; exact absurd h (by simp)
    | some fs =>
      rw [hl] at h
      obtain ⟨e, he, hcontent, hq, hnp⟩ := of_mem_entryMarks h
      obtain ⟨he2, hjson⟩ := List.mem_filter.1 he
      exact ⟨Bool.of_not_eq_true hdot, fs, rfl, e, he2, hjson, hcontent, hq, hnp⟩

theorem of_mem_scanMarks {tDir : String} {pr : List String} {dirs : List Bucket} {q : String}
    (h : q ∈ scanMarks tDir pr dirs) :
    ∃ b ∈ dirs, startsWithDot b.name = false ∧ ∃ fs, b.listing = some fs ∧
      ∃ e ∈ fs, endsWithJson e.name = true ∧ (∃ d, e.content = some d) ∧
        q = joinPath (joinPath tDir b.name) e.name ∧ q ∉ pr := by
  obtain ⟨b, hb, hq⟩ := List.mem_flatMap.1 h
  exact ⟨b, mem_sortBucketsDesc.1 hb, of_mem_bucketMarks hq⟩

theorem mem_scanMarks_of {tDir : String} {pr : List String} {dirs : List Bucket}
    {b : Bucket} (hb : b ∈ dirs) (hdot : startsWithDot b.name = false)
    {fs : List FileEntry} (hfs : b.listing = some fs) {e : FileEntry} (he : e ∈ fs)
    (hjson : endsWithJson e.name = true) {d : CallJson} (hd : e.content = some d)
    (hnp : joinPath (joinPath tDir b.name) e.name ∉ pr) :
    joinPath (joinPath tDir b.name) e.name ∈ scanMarks tDir pr dirs := by
  refine List.mem_flatMap.2 ⟨b, mem_sortBucketsDesc.2 hb, ?_⟩
  unfold bucketMarks
  rw [if_neg (by simp [hdot]), hfs]
  exact mem_entryMarks_of (List.mem_filter.2 ⟨he, hjson⟩) hd hnp

/-! ## Lemmas: marked paths are well-formed ledger records -/

theorem endsWithJson_getLast {s : String} (h : endsWithJson s = true) :
    s.data.getLast? = some 'n' := by
  unfold endsWithJson at h
  obtain ⟨t, ht⟩ := List.isSuffixOf_iff_suffix.1 h
  rw [← ht, List.getLast?_append]
  rfl

theorem goodRec_markPath {tDir bname ename : String}
    (hT : goodDirB tDir = true) (hb : goodNameB bname = true) (he : goodNameB ename = true)
    (hj : endsWithJson ename = true) :
    goodRecB (joinPath (joinPath tDir bname) ename).data = true := by
  have hdata : (joinPath (joinPath tDir bname) ename).data =
      (tDir.data ++ '/' :: bname.data) ++ '/' :: ename.data := by
    rw [joinPath_data, joinPath_data]
  unfold goodDirB at hT
  rw [Bool.and_eq_true] at hT
  obtain ⟨hT1, hT2⟩ := hT
  unfold goodNameB at hb he
  unfold goodRecB
  rw [hdata]
  rw [Bool.and_eq_true, Bool.and_eq_true, Bool.and_eq_true]
  refine ⟨⟨⟨?_, ?_⟩, ?_⟩, ?_⟩
  · simp
  · rw [Bool.not_eq_true']
    rw [contains_false_iff]
    intro hmem
    rcases List.mem_append.1 hmem with h1 | h2
    · rcases List.mem_append.1 h1 with h3 | h4
      · exact contains_false_iff.1 (by simpa using hT1) h3
      · rcases List.mem_cons.1 h4 with h5 | h6
        · exact absurd h5 (by decide)
        · exact contains_false_iff.1 (by simpa using hb) h6
    · rcases List.mem_cons.1 h2 with h5 | h6
      · exact absurd h5 (by decide)
      · exact contains_false_iff.1 (by simpa using he) h6
  · cases htd : tDir.data with
    | nil => simp [htd, isSpaceChar]
    | cons a t =>
      rw [htd] at hT2
      simp only [List.head?_cons] at hT2
      simp [htd, List.head?_append, hT2]
  · have h1 : (('/' : Char) :: ename.data).getLast? = some 'n' := by
      rw [show (('/' : Char) :: ename.data) = ['/'] ++ ename.data from rfl,
        List.getLast?_append, endsWithJson_getLast hj]
      rfl
    rw [List.getLast?_append, h1]
    rfl

theorem goodDirs_bucketName {dirs : List Bucket} (hN : goodDirsB dirs = true) {b : Bucket}
    (hb : b ∈ dirs) : goodNameB b.name = true := by
  have h := List.all_eq_true.1 hN b hb
  unfold goodBucketB at h
  rw [Bool.and_eq_true] at h
  exact h.1

theorem goodDirs_entryName {dirs : List Bucket} (hN : goodDirsB dirs = true) {b : Bucket}
    (hb : b ∈ dirs) {fs : List FileEntry} (hfs : b.listing = some fs) {e : FileEntry}
    (he : e ∈ fs) : goodNameB e.name = true := by
  have h := List.all_eq_true.1 hN b hb
  unfold goodBucketB at h
  rw [Bool.and_eq_true] at h
  have h2 := h.2
  rw [hfs] at h2
  exact List.all_eq_true.1 h2 e he

theorem scanMarks_good {tDir : String} {pr : List String} {dirs : List Bucket}
    (hT : goodDirB tDir = true) (hN : goodDirsB dirs = true) :
    ∀ q ∈ scanMarks tDir pr dirs, goodRecB q.data = true := by
  intro q hq
  obtain ⟨b, hb, hdot, fs, hfs, e, he, hjson, _, hq, _⟩ := of_mem_scanMarks hq
  subst hq
  exact goodRec_markPath hT (goodDirs_bucketName hN hb) (goodDirs_entryName hN hb hfs he) hjson

/-! ## Lemmas: a scan over an already-drained mailbox -/

theorem entryEvents_all_scanFail {cfg : Config} {o : String → SinkOutcomes} {dp : String}
    {pr : List String} {es : List FileEntry}
    (h : ∀ e ∈ es, joinPath dp e.name ∈ pr ∨ e.content = none) :
    ∀ ev ∈ entryEvents cfg o dp pr es, ∃ f, ev = Event.scanFail f := by
  intro ev hev
  obtain ⟨e, he, hin⟩ := List.mem_flatMap.1 hev
  by_cases hm : joinPath dp e.name ∈ pr
  · rw [if_pos (contains_true_iff.2 hm)] at hin
    exact absurd hin (by simp)
  · rcases h e he with hm2 | hc
    · exact absurd hm2 hm
    · rw [if_neg (by rw [contains_false_iff.2 hm]; simp), hc] at hin
      rw [List.mem_singleton.1 hin]
      exact ⟨e.name, rfl⟩

theorem scanMarks_eq_nil {tDir : String} {pr : List String} {dirs : List Bucket}
    (h : ∀ b ∈ dirs, startsWithDot b.name = false → ∀ fs, b.listing = some fs →
      ∀ e ∈ fs, endsWithJson e.name = true →
        e.content = none ∨ joinPath (joinPath tDir b.name) e.name ∈ pr) :
    scanMarks tDir pr dirs = [] := by
  apply List.eq_nil_iff_forall_not_mem.2
  intro q hq
  obtain ⟨b, hb, hdot, fs, hfs, e, he, hjson, ⟨d, hd⟩, hqe, hnp⟩ := of_mem_scanMarks hq
  rcases h b hb hdot fs hfs e he hjson with hc | hm
  · rw [hc] at hd
    exact absurd hd (by simp)
  · exact hnp (hqe ▸ hm)

theorem runScan_all_scanFail {cfg : Config} {o : String → SinkOutcomes} {tDir : String}
    {dirs : List Bucket} {lf : String}
    (h : ∀ b ∈ dirs, startsWithDot b.name = false → ∀ fs, b.listing = some fs →
      ∀ e ∈ fs, endsWithJson e.name = true →
        e.content = none ∨ joinPath (joinPath tDir b.name) e.name ∈ loadProcessed lf) :
    ∀ ev ∈ (runScan cfg o true tDir dirs lf).fst, ∃ f, ev = Event.scanFail f := by
  intro ev hev
  rw [runScan_fst] at hev
  obtain ⟨b, hb, hin⟩ := List.mem_flatMap.1 hev
  have hb2 := mem_sortBucketsDesc.1 hb
  unfold bucketEvents at hin
  by_cases hdot : startsWithDot b.name
  · rw [if_pos hdot] at hin
    exact absurd hin (by simp)
  · rw [if_neg hdot] at hin
    cases hl : b.listing with
    | none =>
      rw [hl] at hin
      exact absurd hin (by simp)
    | some fs =>
      rw [hl] at hin
      refine entryEvents_all_scanFail ?_ ev hin
      intro e he
      obtain ⟨he2, hjson⟩ := List.mem_filter.1 he
      rcases h b hb2 (Bool.eq_false_iff.2 hdot) fs hl e he2 hjson with hc | hm
      · exact Or.inr hc
      · exact Or.inl hm

theorem scan_completeness {cfg : Config} {o : String → SinkOutcomes} {tDir : String}
    {dirs : List Bucket} {lf : String} {ps : List (List Char)}
    (hrep : LedgerRep lf ps) (hT : goodDirB tDir = true) (hN : goodDirsB dirs = true) :
    ∀ b ∈ dirs, startsWithDot b.name = false → ∀ fs, b.listing = some fs →
      ∀ e ∈ fs, endsWithJson e.name = true → ∀ d, e.content = some d →
        joinPath (joinPath tDir b.name) e.name ∈
          loadProcessed (runScan cfg o true tDir dirs lf).snd := by
  intro b hb hdot fs hfs e he hjson d hd
  rw [runScan_snd, loadProcessed_foldMark hrep (scanMarks_good hT hN)]
  by_cases hm : joinPath (joinPath tDir b.name) e.name ∈ loadProcessed lf
  · exact List.mem_append_left _ hm
  · exact List.mem_append_right _ (mem_scanMarks_of hb hdot hfs he hjson hd hm)

theorem runScan_rep {cfg : Config} {o : String → SinkOutcomes} {tDir : String}
    {dirs : List Bucket} {lf : String} {ps : List (List Char)}
    (hrep : LedgerRep lf ps) (hT : goodDirB tDir = true) (hN : goodDirsB dirs = true) :
    LedgerRep (runScan cfg o true tDir dirs lf).snd
      (ps ++ (scanMarks tDir (loadProcessed lf) dirs).map String.data) := by
  rw [runScan_snd]
  exact rep_foldMark hrep (scanMarks_good hT hN)

/-! ## Lemmas: the string comparison is a total order -/

theorem lexLtChars_asymm : ∀ {a b : List Char},
    lexLtChars a b = true → lexLtChars b a = false
  | [], [], h => by simp [lexLtChars] at h
  | [], _ :: _, _ => rfl
  | _ :: _, [], h => by simp [lexLtChars] at h
  | a :: as, b :: bs, h => by
    simp only [lexLtChars] at h ⊢
    rcases Nat.lt_trichotomy a.toNat b.toNat with h1 | h1 | h1
    · rw [if_neg (show ¬b.toNat < a.toNat by omega), if_pos h1]
    · rw [if_neg (show ¬a.toNat < b.toNat by omega),
        if_neg (show ¬b.toNat < a.toNat by omega)] at h
      rw [if_neg (show ¬b.toNat < a.toNat by omega),
        if_neg (show ¬a.toNat < b.toNat by omega)]
      exact lexLtChars_asymm h
    · rw [if_neg (show ¬a.toNat < b.toNat by omega), if_pos h1] at h
      exact absurd h (by simp)

theorem lexLtChars_eq_of : ∀ {a b : List Char},
    lexLtChars a b = false → lexLtChars b a = false → a = b
  | [], [], _, _ => rfl
  | [], _ :: _, h, _ => by simp [lexLtChars] at h
  | _ :: _, [], _, h => by simp [lexLtChars] at h
  | a :: as, b :: bs, h1, h2 => by
    simp only [lexLtChars] at h1 h2
    rcases Nat.lt_trichotomy a.toNat b.toNat with hlt | heq | hgt
    · rw [if_pos hlt] at h1
      exact absurd h1 (by simp)
    · rw [if_neg (show ¬a.toNat < b.toNat by omega),
        if_neg (show ¬b.toNat < a.toNat by omega)] at h1
      rw [if_neg (show ¬b.toNat < a.toNat by omega),
        if_neg (show ¬a.toNat < b.toNat by omega)] at h2
      have hc : a = b := Char.ext (UInt32.ext heq)
      rw [hc, lexLtChars_eq_of h1 h2]
    · rw [if_pos hgt] at h2
      exact absurd h2 (by simp)

theorem lexLtChars_trans : ∀ {a b c : List Char},
    lexLtChars a b = true → lexLtChars b c = true → lexLtChars a c = true
  | [], [], _, h, _ => by simp [lexLtChars] at h
  | [], _ :: _, [], _, h => by simp [lexLtChars] at h
  | [], _ :: _, _ :: _, _, _ => rfl
  | _ :: _, [], _, h, _ => by simp [lexLtChars] at h
  | _ :: _, _ :: _, [], _, h => by simp [lexLtChars] at h
  | a :: as, b :: bs, c :: cs, hab, hbc => by
    simp only [lexLtChars] at hab hbc ⊢
    rcases Nat.lt_trichotomy a.toNat b.toNat with h1 | h1 | h1
    · rcases Nat.lt_trichotomy b.toNat c.toNat with h2 | h2 | h2
      · rw [if_pos (show a.toNat < c.toNat by omega)]
      · rw [if_pos (show a.toNat < c.toNat by omega)]
      · rw [if_neg (show ¬b.toNat < c.toNat by omega), if_pos h2] at hbc
        exact absurd hbc (by simp)
    · rcases Nat.lt_trichotomy b.toNat c.toNat with h2 | h2 | h2
      · rw [if_pos (show a.toNat < c.toNat by omega)]
      · rw [if_neg (show ¬a.toNat < b.toNat by omega),
          if_neg (show ¬b.toNat < a.toNat by omega)] at hab
        rw [if_neg (show ¬b.toNat < c.toNat by omega),
          if_neg (show ¬c.toNat < b.toNat by omega)] at hbc
        rw [if_neg (show ¬a.toNat < c.toNat by omega),
          if_neg (show ¬c.toNat < a.toNat by omega)]
        exact lexLtChars_trans hab hbc
      · rw [if_neg (show ¬b.toNat < c.toNat by omega), if_pos h2] at hbc
        exact absurd hbc (by simp)
    · rw [if_neg (show ¬a.toNat < b.toNat by omega), if_pos h1] at hab
      exact absurd hab (by simp)

theorem strLeB_total (a b : String) : strLeB a b = true ∨ strLeB b a = true := by
  unfold strLeB
  by_cases h1 : lexLtChars b.data a.data = true
  · right
    rw [lexLtChars_asymm h1]
    rfl
  · left
    rw [Bool.not_eq_true] at h1
    rw [h1]
    rfl

theorem strLeB_trans {a b c : String} (h1 : strLeB a b = true) (h2 : strLeB b c = true) :
    strLeB a c = true := by
  unfold strLeB at h1 h2 ⊢
  rw [Bool.not_eq_true'] at h1 h2 ⊢
  by_cases hca : lexLtChars c.data a.data = true
  · exfalso
    by_cases hab : lexLtChars a.data b.data = true
    · have hlt := lexLtChars_trans hca hab
      rw [h2] at hlt
      exact absurd hlt (by simp)
    · have heq : a.data = b.data :=
        lexLtChars_eq_of (by rwa [Bool.not_eq_true] at hab) h1
      rw [heq] at hca
      rw [h2] at hca
      exact absurd hca (by simp)
  · rwa [Bool.not_eq_true] at hca

theorem sortBucketsDesc_pairwise (dirs : List Bucket) :
    List.Pairwise (fun a b : Bucket => strLeB b.name a.name = true) (sortBucketsDesc dirs) := by
  unfold sortBucketsDesc
  rw [List.pairwise_reverse]
  haveI : IsTotal Bucket (fun a b : Bucket => strLeB a.name b.name = true) :=
    ⟨fun a b => strLeB_total a.name b.name⟩
  haveI : IsTrans Bucket (fun a b : Bucket => strLeB a.name b.name = true) :=
    ⟨fun _ _ _ hab hbc => strLeB_trans hab hbc⟩
  exact List.sorted_insertionSort _ dirs

/-! ## Lemmas: marks of the emitted traces -/

theorem marksOf_entryEvents (cfg : Config) (o : String → SinkOutcomes) (dp : String)
    (pr : List String) : ∀ es : List FileEntry,
    marksOf (entryEvents cfg o dp pr es) = entryMarks dp pr es
  | [] => rfl
  | e :: es => by
    have ih := marksOf_entryEvents cfg o dp pr es
    by_cases hm : joinPath dp e.name ∈ pr
    · have hc : pr.contains (joinPath dp e.name) = true := contains_true_iff.2 hm
      have hL : entryEvents cfg o dp pr (e :: es) = entryEvents cfg o dp pr es := by
        simp [entryEvents, List.flatMap_cons, hc, hm]
      have hR : entryMarks dp pr (e :: es) = entryMarks dp pr es := by
        simp [entryMarks, List.filterMap_cons, hc, hm]
      rw [hL, hR, ih]
    · have hc : pr.contains (joinPath dp e.name) = false := contains_false_iff.2 hm
      cases hcc : e.content with
      | none =>
        have hL : entryEvents cfg o dp pr (e :: es) =
            Event.scanFail e.name :: entryEvents cfg o dp pr es := by
          simp [entryEvents, List.flatMap_cons, hc, hm, hcc]
        have hR : entryMarks dp pr (e :: es) = entryMarks dp pr es := by
          simp [entryMarks, List.filterMap_cons, hc, hm, hcc]
        rw [hL, hR,
          show marksOf (Event.scanFail e.name :: entryEvents cfg o dp pr es) =
            marksOf (entryEvents cfg o dp pr es) from rfl, ih]
      | some d =>
        have hL : entryEvents cfg o dp pr (e :: es) =
            buildEvents cfg (o (joinPath dp e.name)) (joinPath dp e.name) d ++
              entryEvents cfg o dp pr es := by
          simp [entryEvents, List.flatMap_cons, hc, hm, hcc]
        have hR : entryMarks dp pr (e :: es) =
            joinPath dp e.name :: entryMarks dp pr es := by
          simp [entryMarks, List.filterMap_cons, hc, hm, hcc]
        rw [hL, hR, marksOf_append, marksOf_buildEvents, ih]
        rfl

theorem marksOf_bucketEvents (cfg : Config) (o : String → SinkOutcomes) (tDir : String)
    (pr : List String) (b : Bucket) :
    marksOf (bucketEvents cfg o tDir pr b) = bucketMarks tDir pr b := by
  unfold bucketEvents bucketMarks
  by_cases hdot : startsWithDot b.name
  · rw [if_pos hdot, if_pos hdot]
    rfl
  · rw [if_neg hdot, if_neg hdot]
    cases hl : b.listing with
    | none => rfl
    | some files => exact marksOf_entryEvents cfg o (joinPath tDir b.name) pr _

theorem marksOf_runScan (cfg : Config) (o : String → SinkOutcomes) (tDir : String)
    (dirs : List Bucket) (lf : String) :
    marksOf (runScan cfg o true tDir dirs lf).fst =
      scanMarks tDir (loadProcessed lf) dirs := by
  rw [runScan_fst]
  unfold scanMarks
  induction sortBucketsDesc dirs with
  | nil => rfl
  | cons b bs ih =>
    rw [List.flatMap_cons, List.flatMap_cons, marksOf_append, ih, marksOf_bucketEvents]

/-! ## Lemmas: path components recovered from a joined path -/

theorem splitSlash_joinPath {tDir d f : String} (hd : '/' ∉ d.data) (hf : '/' ∉ f.data) :
    splitSlash (joinPath (joinPath tDir d) f) = splitSlash tDir ++ [d, f] := by
  unfold splitSlash
  rw [joinPath_data, joinPath_data]
  have hassoc : (tDir.data ++ '/' :: d.data) ++ '/' :: f.data
      = tDir.data ++ '/' :: (d.data ++ '/' :: f.data) := by simp
  rw [hassoc, splitOnChar_append, splitOnChar_append, splitOnChar_of_not_mem hd,
    splitOnChar_of_not_mem hf]
  simp [mk_data]

theorem fileNameOfPath_joinPath {tDir d f : String} (hd : '/' ∉ d.data) (hf : '/' ∉ f.data) :
    fileNameOfPath (joinPath (joinPath tDir d) f) = f := by
  unfold fileNameOfPath
  rw [splitSlash_joinPath hd hf,
    show splitSlash tDir ++ [d, f] = (splitSlash tDir ++ [d]) ++ [f] by simp,
    List.getLast?_concat]
  rfl

theorem dateStrOfPath_joinPath {tDir d f : String} (hd : '/' ∉ d.data) (hf : '/' ∉ f.data) :
    dateStrOfPath (joinPath (joinPath tDir d) f) = d := by
  simp only [dateStrOfPath]
  rw [splitSlash_joinPath hd hf]
  have hlen : (splitSlash tDir ++ [d, f]).length = (splitSlash tDir).length + 2 := by simp
  rw [if_pos (by rw [hlen]; omega), hlen]
  have hidx : (splitSlash tDir).length + 2 - 2 = (splitSlash tDir).length := by omega
  rw [hidx, List.getElem?_append_right (le_refl _)]
  simp

/-! ## Lemmas: the shape of a dispatched trace -/

theorem buildEvents_of_lines_ne {cfg : Config} {o : SinkOutcomes} {filePath : String}
    {d : CallJson}
    (h : buildLines (resolveCallerName (extractUserPhone d) cfg.contacts)
      (extractTranscriptTurns d) ≠ []) :
    buildEvents cfg o filePath d =
      chatBlock cfg.toolsAvailable o.chatOk
        (chatMessage (resolveCallerName (extractUserPhone d) cfg.contacts)
          (timeStrOfFileName (fileNameOfPath filePath))
          (renderDuration (extractCallDuration d)) (extractConversationId d)
          (String.intercalate "\n"
            (buildLines (resolveCallerName (extractUserPhone d) cfg.contacts)
              (extractTranscriptTurns d)))) ++
      summaryBlock cfg.toolsAvailable o.summaryOk
        (summaryTask (resolveCallerName (extractUserPhone d) cfg.contacts)
          (renderDuration (extractCallDuration d))
          (String.intercalate "\n"
            (buildLines (resolveCallerName (extractUserPhone d) cfg.contacts)
              (extractTranscriptTurns d)))) ++
      inboxBlock cfg o.inboxOk (dateStrOfPath filePath)
        (timeStrOfFileName (fileNameOfPath filePath))
        (resolveCallerName (extractUserPhone d) cfg.contacts) (extractUserPhone d)
        (renderDuration (extractCallDuration d)) (extractConversationId d)
        (String.intercalate "\n"
          (buildLines (resolveCallerName (extractUserPhone d) cfg.contacts)
            (extractTranscriptTurns d))) ++
      [Event.ledgerMark filePath] := by
  simp only [buildEvents]
  rw [if_neg (by simpa [List.isEmpty_iff] using h)]

/-! ## Claim theorems -/

/-- C8 (counterexample): the claim says a number that is a key of the
directory resolves to its mapped display name; but a key mapped to the
empty string is falsy under JS `||`, so `resolveCallerName` falls back
to the raw phone number instead of returning the mapped value. -/
theorem c8_counterexample_empty_mapped_name :
    lookupContact [("+34612345678", "")] "+34612345678" = some "" ∧
    resolveCallerName "+34612345678" [("+34612345678", "")] = "+34612345678" ∧
    "+34612345678" ≠ "" := by
  refine ⟨rfl, ?_, by decide⟩
  rfl

/-- C8 (amended): caller-name resolution returns the mapped display
name when the number is a key with a non-empty mapped value; the raw
phone number when the phone is non-empty and the number is unmapped or
mapped to the empty string; and the sentinel "Unknown caller" when the
phone is empty and unmapped or mapped to the empty string. -/
theorem c8_amended_resolution (phone : String) (contacts : List (String × String)) :
    (∀ n, lookupContact contacts phone = some n → n ≠ "" →
      resolveCallerName phone contacts = n) ∧
    ((lookupContact contacts phone = none ∨ lookupContact contacts phone = some "") →
      phone ≠ "" → resolveCallerName phone contacts = phone) ∧
    ((lookupContact contacts phone = none ∨ lookupContact contacts phone = some "") →
      phone = "" → resolveCallerName phone contacts = "Unknown caller") := by
  refine ⟨?_, ?_, ?_⟩
  · intro n hn hne
    simp [resolveCallerName, jsOrString, hn, hne]
  · intro hn hp
    rcases hn with hn | hn <;> simp [resolveCallerName, jsOrString, hn, hp]
  · intro hn hp
    subst hp
    rcases hn with hn | hn <;> simp [resolveCallerName, jsOrString, hn]

/-- Witness for C8 (amended) at the three concrete inputs of the spec's
example: a mapped number, an unmapped number, and an empty number. -/
theorem c8_amended_resolution_witness :
    resolveCallerName "+34612345678" [("+34612345678", "Mom")] = "Mom" ∧
    resolveCallerName "+19995550000" [("+34612345678", "Mom")] = "+19995550000" ∧
    resolveCallerName "" [("+34612345678", "Mom")] = "Unknown caller" :=
  ⟨(c8_amended_resolution "+34612345678" [("+34612345678", "Mom")]).1 "Mom" (by decide) (by decide),
   (c8_amended_resolution "+19995550000" [("+34612345678", "Mom")]).2.1 (by decide) (by decide),
   (c8_amended_resolution "" [("+34612345678", "Mom")]).2.2 (by decide) (by decide)⟩

/-- C6 (counterexample): the claim says the call duration is accepted
from either the flat or the nested shape; but `processTranscript` reads
only `data?.data?.metadata?.call_duration_secs ?? 0`, so a flat-shape
payload carrying a 125-second duration in its top-level `metadata`
extracts duration 0. -/
theorem c6_counterexample_flat_duration :
    flatShapeRecord.metadata = some { call_duration_secs := some 125 } ∧
    extractCallDuration flatShapeRecord = 0 := by
  exact ⟨rfl, rfl⟩

/-- C6 (amended): the caller phone number and the conversation
identifier are extracted by a nested-then-flat prioritized fallback
(with defaults `""` and `"unknown"`); the duration is read only from
the nested `data.metadata.call_duration_secs` path, defaults to zero
when that path is absent, and ignores the top-level `metadata` field
entirely. -/
theorem c6_amended_extraction (d : CallJson) :
    (∀ u, d.data.bind JsonInner.user_id = some u → extractUserPhone d = u) ∧
    (d.data.bind JsonInner.user_id = none → extractUserPhone d = d.user_id.getD "") ∧
    (∀ c, d.data.bind JsonInner.conversation_id = some c → extractConversationId d = c) ∧
    (d.data.bind JsonInner.conversation_id = none →
      extractConversationId d = d.conversation_id.getD "unknown") ∧
    (∀ n, (d.data.bind JsonInner.metadata).bind JsonMetadata.call_duration_secs = some n →
      extractCallDuration d = n) ∧
    ((d.data.bind JsonInner.metadata).bind JsonMetadata.call_duration_secs = none →
      extractCallDuration d = 0) ∧
    (∀ m, extractCallDuration { d with metadata := m } = extractCallDuration d) := by
  refine ⟨?_, ?_, ?_, ?_, ?_, ?_, ?_⟩
  · intro u hu
    simp [extractUserPhone, hu]
  · intro hu
    simp [extractUserPhone, hu]
  · intro c hc
    simp [extractConversationId, hc]
  · intro hc
    simp [extractConversationId, hc]
  · intro n hn
    simp [extractCallDuration, hn]
  · intro hn
    simp [extractCallDuration, hn]
  · intro m
    rfl

/-- Witness for C6 (amended): the nested-shape record yields its nested
phone and duration; the flat-shape record falls back to the top-level
phone and to duration zero. -/
theorem c6_amended_extraction_witness :
    extractUserPhone nestedShapeRecord = "+34612345678" ∧
    extractCallDuration nestedShapeRecord = 125 ∧
    extractUserPhone flatShapeRecord = "+34612345678" ∧
    extractCallDuration flatShapeRecord = 0 :=
  ⟨(c6_amended_extraction nestedShapeRecord).1 "+34612345678" (by decide),
   (c6_amended_extraction nestedShapeRecord).2.2.2.2.1 125 (by decide),
   ((c6_amended_extraction flatShapeRecord).2.1 (by decide)).trans (by decide),
   (c6_amended_extraction flatShapeRecord).2.2.2.2.2.1 (by decide)⟩

/-- C7: normalization strips angle-bracket tags and trims each turn's
message; a turn is dropped exactly when the resulting message is empty
or is the token "none" case-insensitively; a kept turn's line is
labelled "Alfred" for the "agent" role, the resolved caller name for
the "user" role, and the raw role string for any other role. -/
theorem c7_turn_normalization (callerName : String) (t : RawTurn) :
    (normalizeTurn callerName t = none ↔
      (trimString (stripTags (t.message.getD "")) = "" ∨
       lowerStr (trimString (stripTags (t.message.getD ""))) = "none")) ∧
    (∀ r, t.role = some r →
      trimString (stripTags (t.message.getD "")) ≠ "" →
      lowerStr (trimString (stripTags (t.message.getD ""))) ≠ "none" →
      normalizeTurn callerName t = some
        ((if r = "agent" then "Alfred" else if r = "user" then callerName else r) ++
          ": " ++ trimString (stripTags (t.message.getD "")))) := by
  constructor
  · by_cases hcond : trimString (stripTags (t.message.getD "")) ≠ "" ∧
        lowerStr (trimString (stripTags (t.message.getD ""))) ≠ "none"
    · simp only [normalizeTurn, if_pos hcond]
      constructor
      · intro h
        exact absurd h (by simp)
      · intro h
        rcases h with h | h
        · exact absurd h hcond.1
        · exact absurd h hcond.2
    · simp only [normalizeTurn, if_neg hcond]
      constructor
      · intro _
        by_cases h1 : trimString (stripTags (t.message.getD "")) = ""
        · exact Or.inl h1
        · refine Or.inr ?_
          by_cases h2 : lowerStr (trimString (stripTags (t.message.getD ""))) = "none"
          · exact h2
          · exact absurd ⟨h1, h2⟩ hcond
      · intro _
        trivial
  · intro r hr h1 h2
    simp only [normalizeTurn, hr, Option.getD_some, if_pos (And.intro h1 h2)]
    by_cases hag : r = "agent"
    · simp [hag]
    · by_cases hus : r = "user"
      · simp [hus, hag]
      · simp [hag, hus]

/-- Witness for C7: a "user" turn with tags and padding is kept with
the caller's label; the same theorem also drops a tags-plus-"none"
turn. -/
theorem c7_turn_normalization_witness :
    normalizeTurn "Mom" { role := some "user", message := some " <sigh> Hi there ", time_in_call_secs := none } = some "Mom: Hi there" ∧
    normalizeTurn "Mom" noneTurn = none :=
  ⟨((c7_turn_normalization "Mom" { role := some "user", message := some " <sigh> Hi there ", time_in_call_secs := none }).2
      "user" rfl (by decide) (by decide)).trans (by decide),
   (c7_turn_normalization "Mom" noneTurn).1.2 (Or.inr (by decide))⟩

/-- C1: once a mailbox entry's JSON parses and its normalized dialogue
is non-empty, processing returns normally for every combination of sink
outcomes, appends exactly the entry's path to the ledger file, ends the
trace with the ledger mark, and handles each sink independently: a sink
either runs or has its failure logged, and no sink failure prevents the
others or the ledger mark. -/
theorem c1_partial_sink_failure_still_marks (cfg : Config) (o : SinkOutcomes)
    (filePath : String) (d : CallJson) (lf : String)
    (hlines : buildLines (resolveCallerName (extractUserPhone d) cfg.contacts)
      (extractTranscriptTurns d) ≠ []) :
    processTranscript cfg o filePath (some d) lf =
      Except.ok (buildEvents cfg o filePath d, markProcessed lf filePath) ∧
    (buildEvents cfg o filePath d).getLast? = some (Event.ledgerMark filePath) ∧
    (cfg.toolsAvailable = true → o.chatOk = true →
      ∃ m, Event.chatSend m ∈ buildEvents cfg o filePath d) ∧
    (cfg.toolsAvailable = true → o.chatOk = false →
      Event.chatFail ∈ buildEvents cfg o filePath d) ∧
    (cfg.toolsAvailable = true → o.summaryOk = true →
      ∃ m, Event.summarySpawn m ∈ buildEvents cfg o filePath d) ∧
    (cfg.toolsAvailable = true → o.summaryOk = false →
      Event.summaryFail ∈ buildEvents cfg o filePath d) ∧
    (∀ dir, cfg.inboxDir = some dir → o.inboxOk = true →
      ∃ p c, Event.inboxWrite p c ∈ buildEvents cfg o filePath d) ∧
    (∀ dir, cfg.inboxDir = some dir → o.inboxOk = false →
      Event.inboxFail ∈ buildEvents cfg o filePath d) := by
  refine ⟨rfl, buildEvents_getLast cfg o filePath d, ?_, ?_, ?_, ?_, ?_, ?_⟩
  · intro ht hc
    refine ⟨chatMessage (resolveCallerName (extractUserPhone d) cfg.contacts)
      (timeStrOfFileName (fileNameOfPath filePath)) (renderDuration (extractCallDuration d))
      (extractConversationId d)
      (String.intercalate "\n" (buildLines (resolveCallerName (extractUserPhone d) cfg.contacts)
        (extractTranscriptTurns d))), ?_⟩
    rw [buildEvents_of_lines_ne hlines, ht, hc]
    simp only [chatBlock, if_true]
    exact List.mem_append_left _ (List.mem_append_left _
      (List.mem_append_left _ (List.mem_singleton.2 rfl)))
  · intro ht hc
    rw [buildEvents_of_lines_ne hlines, ht, hc]
    simp only [chatBlock, if_true]
    exact List.mem_append_left _ (List.mem_append_left _
      (List.mem_append_left _ (List.mem_singleton.2 rfl)))
  · intro ht hc
    refine ⟨summaryTask (resolveCallerName (extractUserPhone d) cfg.contacts)
      (renderDuration (extractCallDuration d))
      (String.intercalate "\n" (buildLines (resolveCallerName (extractUserPhone d) cfg.contacts)
        (extractTranscriptTurns d))), ?_⟩
    rw [buildEvents_of_lines_ne hlines, ht, hc]
    simp only [summaryBlock, if_true]
    exact List.mem_append_left _ (List.mem_append_left _
      (List.mem_append_right _ (List.mem_singleton.2 rfl)))
  · intro ht hc
    rw [buildEvents_of_lines_ne hlines, ht, hc]
    simp only [summaryBlock, if_true]
    exact List.mem_append_left _ (List.mem_append_left _
      (List.mem_append_right _ (List.mem_singleton.2 rfl)))
  · intro dir hdir hio
    refine ⟨joinPath (String.mk (replaceFirstTilde cfg.home.data dir.data))
        (inboxFileName (dateStrOfPath filePath) (timeStrOfFileName (fileNameOfPath filePath))
          (resolveCallerName (extractUserPhone d) cfg.contacts)),
      inboxContent (dateStrOfPath filePath) (timeStrOfFileName (fileNameOfPath filePath))
        (resolveCallerName (extractUserPhone d) cfg.contacts) (extractUserPhone d)
        (renderDuration (extractCallDuration d)) (extractConversationId d)
        (String.intercalate "\n"
          (buildLines (resolveCallerName (extractUserPhone d) cfg.contacts)
            (extractTranscriptTurns d))), ?_⟩
    rw [buildEvents_of_lines_ne hlines, hio]
    have hib : Event.inboxWrite
        (joinPath (String.mk (replaceFirstTilde cfg.home.data dir.data))
          (inboxFileName (dateStrOfPath filePath) (timeStrOfFileName (fileNameOfPath filePath))
            (resolveCallerName (extractUserPhone d) cfg.contacts)))
        (inboxContent (dateStrOfPath filePath) (timeStrOfFileName (fileNameOfPath filePath))
          (resolveCallerName (extractUserPhone d) cfg.contacts) (extractUserPhone d)
          (renderDuration (extractCallDuration d)) (extractConversationId d)
          (String.intercalate "\n"
            (buildLines (resolveCallerName (extractUserPhone d) cfg.contacts)
              (extractTranscriptTurns d)))) ∈
        inboxBlock cfg true (dateStrOfPath filePath) (timeStrOfFileName (fileNameOfPath filePath))
          (resolveCallerName (extractUserPhone d) cfg.contacts) (extractUserPhone d)
          (renderDuration (extractCallDuration d)) (extractConversationId d)
          (String.intercalate "\n"
            (buildLines (resolveCallerName (extractUserPhone d) cfg.contacts)
              (extractTranscriptTurns d))) := by
      simp only [inboxBlock, hdir, if_true]
      exact List.mem_append_right _ (List.mem_singleton.2 rfl)
    exact List.mem_append_left _ (List.mem_append_right _ hib)
  · intro dir hdir hio
    rw [buildEvents_of_lines_ne hlines, hio]
    have hib : Event.inboxFail ∈
        inboxBlock cfg false (dateStrOfPath filePath) (timeStrOfFileName (fileNameOfPath filePath))
          (resolveCallerName (extractUserPhone d) cfg.contacts) (extractUserPhone d)
          (renderDuration (extractCallDuration d)) (extractConversationId d)
          (String.intercalate "\n"
            (buildLines (resolveCallerName (extractUserPhone d) cfg.contacts)
              (extractTranscriptTurns d))) := by
      simp only [inboxBlock, hdir]
      exact List.mem_singleton.2 rfl
    exact List.mem_append_left _ (List.mem_append_right _ hib)

/-- Witness for C1 at a concrete entry with the chat and inbox sinks
failing and the summarizer succeeding. -/
theorem c1_partial_sink_failure_witness :
    processTranscript cfgSample chatAndInboxFail "t/2024-03-01/09-00-00_abc.json"
        (some exactRecord) "" =
      Except.ok (buildEvents cfgSample chatAndInboxFail "t/2024-03-01/09-00-00_abc.json" exactRecord,
        markProcessed "" "t/2024-03-01/09-00-00_abc.json") ∧
    (buildEvents cfgSample chatAndInboxFail "t/2024-03-01/09-00-00_abc.json" exactRecord).getLast?
      = some (Event.ledgerMark "t/2024-03-01/09-00-00_abc.json") ∧
    Event.chatFail ∈
      buildEvents cfgSample chatAndInboxFail "t/2024-03-01/09-00-00_abc.json" exactRecord ∧
    (∃ m, Event.summarySpawn m ∈
      buildEvents cfgSample chatAndInboxFail "t/2024-03-01/09-00-00_abc.json" exactRecord) ∧
    Event.inboxFail ∈
      buildEvents cfgSample chatAndInboxFail "t/2024-03-01/09-00-00_abc.json" exactRecord := by
  have h := c1_partial_sink_failure_still_marks cfgSample chatAndInboxFail
    "t/2024-03-01/09-00-00_abc.json" exactRecord "" (by decide)
  exact ⟨h.1, h.2.1, h.2.2.2.1 rfl rfl, h.2.2.2.2.1 rfl rfl,
    h.2.2.2.2.2.2.2 "~/vault/inbox" rfl rfl⟩

/-- C4: a parsed entry whose normalized dialogue has zero non-empty
lines is marked processed and invokes no sink: `processTranscript`
emits only the ledger mark, and one scan over a mailbox holding just
that entry appends its path to the ledger and emits nothing else. -/
theorem c4_empty_dialogue_marked_no_sinks (cfg : Config) (o : SinkOutcomes)
    (o2 : String → SinkOutcomes) (tDir dateDir fname : String) (d : CallJson) (lf : String)
    (hlines : buildLines (resolveCallerName (extractUserPhone d) cfg.contacts)
      (extractTranscriptTurns d) = []) :
    processTranscript cfg o (joinPath (joinPath tDir dateDir) fname) (some d) lf =
      Except.ok ([Event.ledgerMark (joinPath (joinPath tDir dateDir) fname)],
        markProcessed lf (joinPath (joinPath tDir dateDir) fname)) ∧
    (startsWithDot dateDir = false → endsWithJson fname = true →
      joinPath (joinPath tDir dateDir) fname ∉ loadProcessed lf →
      runScan cfg o2 true tDir
          [{ name := dateDir, listing := some [{ name := fname, content := some d }] }] lf =
        ([Event.ledgerMark (joinPath (joinPath tDir dateDir) fname)],
          markProcessed lf (joinPath (joinPath tDir dateDir) fname))) := by
  constructor
  · simp [processTranscript, buildEvents, hlines]
  · intro hdot hjson hnp
    have hcontains : (loadProcessed lf).contains (joinPath (joinPath tDir dateDir) fname)
        = false := contains_false_iff.2 hnp
    have hsort : sortBucketsDesc
        [({ name := dateDir, listing := some [{ name := fname, content := some d }] } : Bucket)] =
        [{ name := dateDir, listing := some [{ name := fname, content := some d }] }] := rfl
    simp [runScan, hsort, scanBuckets, hdot, scanEntries, List.filter_cons, hjson, hcontains,
      hnp, processTranscript, buildEvents, hlines]

/-- Witness for C4 at a concrete entry all of whose turns normalize to
nothing (tags plus the "none" token). -/
theorem c4_empty_dialogue_witness :
    processTranscript cfgSample chatAndInboxFail
        (joinPath (joinPath "t" "2024-03-01") "10-00-00_conv-empty.json")
        (some emptyDialogueRecord) "" =
      Except.ok ([Event.ledgerMark (joinPath (joinPath "t" "2024-03-01") "10-00-00_conv-empty.json")],
        markProcessed "" (joinPath (joinPath "t" "2024-03-01") "10-00-00_conv-empty.json")) ∧
    runScan cfgSample allSinksOk true "t"
        [{ name := "2024-03-01", listing := some [{ name := "10-00-00_conv-empty.json", content := some emptyDialogueRecord }] }] "" =
      ([Event.ledgerMark (joinPath (joinPath "t" "2024-03-01") "10-00-00_conv-empty.json")],
        markProcessed "" (joinPath (joinPath "t" "2024-03-01") "10-00-00_conv-empty.json")) := by
  have h := c4_empty_dialogue_marked_no_sinks cfgSample chatAndInboxFail allSinksOk
    "t" "2024-03-01" "10-00-00_conv-empty.json" emptyDialogueRecord "" (by decide)
  exact ⟨h.1, h.2 (by decide) (by decide) (by decide)⟩

/-- C9: with a configured inbox directory and a successful inbox sink,
the dispatched trace contains a write whose file name is derived from
the entry's date bucket, its file name's time prefix, and the slug of
the caller name (lower-cased, non-alphanumerics replaced by dashes);
the directory-creation event immediately precedes the write exactly
when the resolved destination directory does not exist; and the spec's
concrete instance renders `voice-2024-03-01-1430-mom.md`. -/
theorem c9_inbox_filename_and_mkdir (cfg : Config) (o : SinkOutcomes)
    (tDir dateDir fname dir : String) (d : CallJson)
    (hdir : cfg.inboxDir = some dir) (hok : o.inboxOk = true)
    (hd : '/' ∉ dateDir.data) (hf : '/' ∉ fname.data)
    (hlines : buildLines (resolveCallerName (extractUserPhone d) cfg.contacts)
      (extractTranscriptTurns d) ≠ []) :
    (∃ pre post,
      buildEvents cfg o (joinPath (joinPath tDir dateDir) fname) d =
        pre ++
        (if cfg.inboxDirExists then [] else
          [Event.mkdirInbox (String.mk (replaceFirstTilde cfg.home.data dir.data))]) ++
        Event.inboxWrite
          (joinPath (String.mk (replaceFirstTilde cfg.home.data dir.data))
            (inboxFileName dateDir (timeStrOfFileName fname)
              (resolveCallerName (extractUserPhone d) cfg.contacts)))
          (inboxContent dateDir (timeStrOfFileName fname)
            (resolveCallerName (extractUserPhone d) cfg.contacts) (extractUserPhone d)
            (renderDuration (extractCallDuration d)) (extractConversationId d)
            (String.intercalate "\n"
              (buildLines (resolveCallerName (extractUserPhone d) cfg.contacts)
                (extractTranscriptTurns d)))) :: post) ∧
    inboxFileName "2024-03-01" "14:30" "Mom" = "voice-2024-03-01-1430-mom.md" := by
  constructor
  · refine ⟨chatBlock cfg.toolsAvailable o.chatOk
        (chatMessage (resolveCallerName (extractUserPhone d) cfg.contacts)
          (timeStrOfFileName fname) (renderDuration (extractCallDuration d))
          (extractConversationId d)
          (String.intercalate "\n"
            (buildLines (resolveCallerName (extractUserPhone d) cfg.contacts)
              (extractTranscriptTurns d)))) ++
      summaryBlock cfg.toolsAvailable o.summaryOk
        (summaryTask (resolveCallerName (extractUserPhone d) cfg.contacts)
          (renderDuration (extractCallDuration d))
          (String.intercalate "\n"
            (buildLines (resolveCallerName (extractUserPhone d) cfg.contacts)
              (extractTranscriptTurns d)))),
      [Event.ledgerMark (joinPath (joinPath tDir dateDir) fname)], ?_⟩
    rw [buildEvents_of_lines_ne hlines, dateStrOfPath_joinPath hd hf,
      fileNameOfPath_joinPath hd hf, hok]
    have hib : inboxBlock cfg true dateDir (timeStrOfFileName fname)
        (resolveCallerName (extractUserPhone d) cfg.contacts) (extractUserPhone d)
        (renderDuration (extractCallDuration d)) (extractConversationId d)
        (String.intercalate "\n"
          (buildLines (resolveCallerName (extractUserPhone d) cfg.contacts)
            (extractTranscriptTurns d))) =
        (if cfg.inboxDirExists then [] else
          [Event.mkdirInbox (String.mk (replaceFirstTilde cfg.home.data dir.data))]) ++
        [Event.inboxWrite
          (joinPath (String.mk (replaceFirstTilde cfg.home.data dir.data))
            (inboxFileName dateDir (timeStrOfFileName fname)
              (resolveCallerName (extractUserPhone d) cfg.contacts)))
          (inboxContent dateDir (timeStrOfFileName fname)
            (resolveCallerName (extractUserPhone d) cfg.contacts) (extractUserPhone d)
            (renderDuration (extractCallDuration d)) (extractConversationId d)
            (String.intercalate "\n"
              (buildLines (resolveCallerName (extractUserPhone d) cfg.contacts)
                (extractTranscriptTurns d))))] := by
      simp [inboxBlock, hdir]
    rw [hib]
    simp
  · decide

/-- Witness for C9: the concrete entry from the spec's example, caller
resolved to "Mom", with the destination directory absent. -/
theorem c9_inbox_filename_witness :
    (∃ pre post,
      buildEvents cfgSample ⟨true, true, true⟩
          (joinPath (joinPath "t" "2024-03-01") "14-30-00_conv-1.json") nestedShapeRecord =
        pre ++
        (if cfgSample.inboxDirExists then [] else
          [Event.mkdirInbox (String.mk (replaceFirstTilde cfgSample.home.data "~/vault/inbox".data))]) ++
        Event.inboxWrite
          (joinPath (String.mk (replaceFirstTilde cfgSample.home.data "~/vault/inbox".data))
            (inboxFileName "2024-03-01" (timeStrOfFileName "14-30-00_conv-1.json")
              (resolveCallerName (extractUserPhone nestedShapeRecord) cfgSample.contacts)))
          (inboxContent "2024-03-01" (timeStrOfFileName "14-30-00_conv-1.json")
            (resolveCallerName (extractUserPhone nestedShapeRecord) cfgSample.contacts)
            (extractUserPhone nestedShapeRecord)
            (renderDuration (extractCallDuration nestedShapeRecord))
            (extractConversationId nestedShapeRecord)
            (String.intercalate "\n"
              (buildLines (resolveCallerName (extractUserPhone nestedShapeRecord) cfgSample.contacts)
                (extractTranscriptTurns nestedShapeRecord)))) :: post) ∧
    inboxFileName "2024-03-01" "14:30" "Mom" = "voice-2024-03-01-1430-mom.md" :=
  c9_inbox_filename_and_mkdir cfgSample ⟨true, true, true⟩ "t" "2024-03-01"
    "14-30-00_conv-1.json" "~/vault/inbox" nestedShapeRecord rfl rfl (by decide) (by decide)
    (by decide)

/-- C2: over a well-formed ledger file and a mailbox whose names are
newline-free, a second scan immediately after a first one (the ledger
snapshot is reloaded from the file at the start of every scan, exactly
as after a process restart) leaves the ledger file unchanged and emits
no sink side effect — every event of the second scan is the per-entry
failure log of an entry that already failed to parse. -/
theorem c2_scan_idempotent (cfg : Config) (o o2 : String → SinkOutcomes) (tDir : String)
    (dirs : List Bucket) (lf : String) (ps : List (List Char))
    (hrep : LedgerRep lf ps) (hT : goodDirB tDir = true) (hN : goodDirsB dirs = true) :
    (runScan cfg o2 true tDir dirs (runScan cfg o true tDir dirs lf).snd).snd =
      (runScan cfg o true tDir dirs lf).snd ∧
    ∀ ev ∈ (runScan cfg o2 true tDir dirs (runScan cfg o true tDir dirs lf).snd).fst,
      ∃ f, ev = Event.scanFail f := by
  have hpre : ∀ b ∈ dirs, startsWithDot b.name = false → ∀ fs, b.listing = some fs →
      ∀ e ∈ fs, endsWithJson e.name = true →
        e.content = none ∨ joinPath (joinPath tDir b.name) e.name ∈
          loadProcessed (runScan cfg o true tDir dirs lf).snd := by
    intro b hb hdot fs hfs e he hjson
    cases hc : e.content with
    | none => exact Or.inl rfl
    | some d => exact Or.inr (scan_completeness hrep hT hN b hb hdot fs hfs e he hjson d hc)
  constructor
  · rw [runScan_snd cfg o2 tDir dirs (runScan cfg o true tDir dirs lf).snd,
      scanMarks_eq_nil hpre]
    rfl
  · exact runScan_all_scanFail hpre

/-- Witness for C2: two consecutive scans of a concrete two-entry
mailbox starting from the empty (missing) ledger file. -/
theorem c2_scan_idempotent_witness :
    (runScan cfgSample allSinksOk true "t" sameBucketMailbox
        (runScan cfgSample allSinksOk true "t" sameBucketMailbox "").snd).snd =
      (runScan cfgSample allSinksOk true "t" sameBucketMailbox "").snd ∧
    ∀ ev ∈ (runScan cfgSample allSinksOk true "t" sameBucketMailbox
        (runScan cfgSample allSinksOk true "t" sameBucketMailbox "").snd).fst,
      ∃ f, ev = Event.scanFail f :=
  c2_scan_idempotent cfgSample allSinksOk allSinksOk "t" sameBucketMailbox "" []
    ⟨rfl, by simp⟩ (by decide) (by decide)

/-- C5 (counterexample): the claim says entries within one bucket are
handed over newest-first; but the scanner takes the bucket's entries in
raw directory-listing order, so with a listing that has the
07:00-prefixed file before the 09:00-prefixed one, the earlier call is
dispatched (and ledger-marked) first. -/
theorem c5_counterexample_listing_order :
    marksOf (runScan cfgSample allSinksOk true "t" sameBucketMailbox "").fst =
      ["t/2024-03-01/07-00-00_abc.json", "t/2024-03-01/09-00-00_xyz.json"] ∧
    timeStrOfFileName "07-00-00_abc.json" = "07:00" ∧
    timeStrOfFileName "09-00-00_xyz.json" = "09:00" := by
  refine ⟨?_, rfl, rfl⟩
  rfl

/-- C5 (amended): date buckets are enumerated newest-first — the bucket
sequence the scan walks is a permutation of the mailbox ordered
descending by name — but within each bucket entries are taken in raw
listing order, only filtered to `.json` names: the sequence of ledger
marks of one scan equals the bucket-by-bucket concatenation of each
bucket's unprocessed parseable `.json` entries in listing order. -/
theorem c5_amended_scan_order (cfg : Config) (o : String → SinkOutcomes) (tDir : String)
    (dirs : List Bucket) (lf : String) :
    marksOf (runScan cfg o true tDir dirs lf).fst =
      (sortBucketsDesc dirs).flatMap (bucketMarks tDir (loadProcessed lf)) ∧
    List.Pairwise (fun a b : Bucket => strLeB b.name a.name = true) (sortBucketsDesc dirs) ∧
    (sortBucketsDesc dirs).Perm dirs :=
  ⟨marksOf_runScan cfg o tDir dirs lf, sortBucketsDesc_pairwise dirs, by
    unfold sortBucketsDesc
    exact (List.reverse_perm _).trans (List.perm_insertionSort _ dirs)⟩

theorem scanFail_mem_runScan {cfg : Config} {o : String → SinkOutcomes} {tDir : String}
    {dirs : List Bucket} {lf : String} {b : Bucket} {fname : String} {fs : List FileEntry}
    (hb : b ∈ dirs) (hdot : startsWithDot b.name = false) (hfs : b.listing = some fs)
    (he : ({ name := fname, content := none } : FileEntry) ∈ fs)
    (hjson : endsWithJson fname = true)
    (hnp : joinPath (joinPath tDir b.name) fname ∉ loadProcessed lf) :
    Event.scanFail fname ∈ (runScan cfg o true tDir dirs lf).fst := by
  rw [runScan_fst]
  refine List.mem_flatMap.2 ⟨b, mem_sortBucketsDesc.2 hb, ?_⟩
  unfold bucketEvents
  rw [if_neg (by simp [hdot]), hfs]
  refine List.mem_flatMap.2
    ⟨{ name := fname, content := none }, List.mem_filter.2 ⟨he, hjson⟩, ?_⟩
  rw [if_neg (by rw [contains_false_iff.2 hnp]; simp)]
  simp

/-- C3: an entry whose read or parse throws is never marked: over any
number of consecutive scans its path stays absent from the ledger and
every scan logs the per-entry failure again; and that failure does not
abort the scan — every parseable unprocessed `.json` entry of the same
mailbox is in the ledger after the first scan. -/
theorem c3_failing_entry_retried_forever (cfg : Config) (o : String → SinkOutcomes)
    (tDir : String) (dirs : List Bucket) (lf : String) (ps : List (List Char)) (b : Bucket)
    (fname : String) (fs : List FileEntry)
    (hrep : LedgerRep lf ps) (hT : goodDirB tDir = true) (hN : goodDirsB dirs = true)
    (hb : b ∈ dirs) (hdot : startsWithDot b.name = false) (hfs : b.listing = some fs)
    (he : ({ name := fname, content := none } : FileEntry) ∈ fs)
    (hjson : endsWithJson fname = true)
    (hfail : ∀ b2 ∈ dirs, startsWithDot b2.name = false → ∀ fs2, b2.listing = some fs2 →
      ∀ e ∈ fs2, endsWithJson e.name = true →
        joinPath (joinPath tDir b2.name) e.name = joinPath (joinPath tDir b.name) fname →
        e.content = none)
    (hnot : joinPath (joinPath tDir b.name) fname ∉ loadProcessed lf) :
    (∀ k, joinPath (joinPath tDir b.name) fname ∉
      loadProcessed (iterScan cfg o tDir dirs k lf)) ∧
    (∀ k, Event.scanFail fname ∈
      (runScan cfg o true tDir dirs (iterScan cfg o tDir dirs k lf)).fst) ∧
    (∀ b2 ∈ dirs, startsWithDot b2.name = false → ∀ fs2, b2.listing = some fs2 →
      ∀ e ∈ fs2, endsWithJson e.name = true → ∀ d, e.content = some d →
        joinPath (joinPath tDir b2.name) e.name ∈
          loadProcessed (runScan cfg o true tDir dirs lf).snd) := by
  have key : ∀ k lf2, (∃ qs, LedgerRep lf2 qs) →
      joinPath (joinPath tDir b.name) fname ∉ loadProcessed lf2 →
      (∃ qs, LedgerRep (iterScan cfg o tDir dirs k lf2) qs) ∧
        joinPath (joinPath tDir b.name) fname ∉
          loadProcessed (iterScan cfg o tDir dirs k lf2) := by
    intro k
    induction k with
    | zero => intro lf2 h1 h2; exact ⟨h1, h2⟩
    | succ k ih =>
      intro lf2 h1 h2
      obtain ⟨qs, hq⟩ := h1
      have hstep1 := @runScan_rep cfg o tDir dirs lf2 qs hq hT hN
      have hstep2 : joinPath (joinPath tDir b.name) fname ∉
          loadProcessed (runScan cfg o true tDir dirs lf2).snd := by
        rw [runScan_snd, loadProcessed_foldMark hq (scanMarks_good hT hN)]
        intro hmem
        rcases List.mem_append.1 hmem with h | h
        · exact h2 h
        · obtain ⟨b2, hb2, hdot2, fs2, hfs2, e2, he2, hjson2, ⟨d2, hd2⟩, heq2, _⟩ :=
            of_mem_scanMarks h
          have hc := hfail b2 hb2 hdot2 fs2 hfs2 e2 he2 hjson2 heq2.symm
          rw [hc] at hd2
          exact absurd hd2 (by simp)
      exact ih (runScan cfg o true tDir dirs lf2).snd ⟨_, hstep1⟩ hstep2
  refine ⟨fun k => (key k lf ⟨ps, hrep⟩ hnot).2, fun k => ?_, ?_⟩
  · exact scanFail_mem_runScan hb hdot hfs he hjson (key k lf ⟨ps, hrep⟩ hnot).2
  · exact scan_completeness hrep hT hN

/-- Witness for C3: a mailbox holding one unparseable entry and one
good one, scanned from the empty ledger file. -/
theorem c3_failing_entry_witness :
    (∀ k, joinPath (joinPath "t" "2024-03-02") "08-00-00_bad.json" ∉
      loadProcessed (iterScan cfgSample allSinksOk "t" failMailbox k "")) ∧
    (∀ k, Event.scanFail "08-00-00_bad.json" ∈
      (runScan cfgSample allSinksOk true "t" failMailbox
        (iterScan cfgSample allSinksOk "t" failMailbox k "")).fst) ∧
    (∀ b2 ∈ failMailbox, startsWithDot b2.name = false → ∀ fs2, b2.listing = some fs2 →
      ∀ e ∈ fs2, endsWithJson e.name = true → ∀ d, e.content = some d →
        joinPath (joinPath "t" b2.name) e.name ∈
          loadProcessed (runScan cfgSample allSinksOk true "t" failMailbox "").snd) :=
  c3_failing_entry_retried_forever cfgSample allSinksOk "t" failMailbox "" []
    { name := "2024-03-02", listing := some [{ name := "08-00-00_bad.json", content := none }] }
    "08-00-00_bad.json" [{ name := "08-00-00_bad.json", content := none }]
    ⟨rfl, by simp⟩ (by decide) (by decide) (by decide) (by decide) rfl (by decide) (by decide)
    (by decide) (by decide)

theorem findMatchFile_eq_find? (conversationId : String) : ∀ files : List FileEntry,
    (files.find? (fun e => includesStr e.name conversationId && endsWithJson e.name) = none →
      findMatchFile conversationId files = none) ∧
    (∀ e, files.find? (fun e => includesStr e.name conversationId && endsWithJson e.name)
        = some e →
      findMatchFile conversationId files = some e.content)
  | [] => ⟨fun _ => rfl, fun e h => by simp at h⟩
  | f :: files => by
    have ih := findMatchFile_eq_find? conversationId files
    by_cases hp : (includesStr f.name conversationId && endsWithJson f.name) = true
    · constructor
      · intro h
        rw [@List.find?_cons_of_pos _
          (fun e => includesStr e.name conversationId && endsWithJson e.name) f files hp] at h
        exact absurd h (by simp)
      · intro e h
        rw [@List.find?_cons_of_pos _
          (fun e => includesStr e.name conversationId && endsWithJson e.name) f files hp] at h
        have hfe : f = e := Option.some.inj h
        subst hfe
        unfold findMatchFile
        rw [if_pos hp]
    · constructor
      · intro h
        rw [@List.find?_cons_of_neg _
          (fun e => includesStr e.name conversationId && endsWithJson e.name) f files hp] at h
        unfold findMatchFile
        rw [if_neg hp]
        exact ih.1 h
      · intro e h
        rw [@List.find?_cons_of_neg _
          (fun e => includesStr e.name conversationId && endsWithJson e.name) f files hp] at h
        unfold findMatchFile
        rw [if_neg hp]
        exact ih.2 e h

theorem getTranscriptGo_spec (contacts : List (String × String)) (conversationId : String) :
    ∀ bs : List Bucket,
    (∀ b ∈ bs, ∀ fs, b.listing = some fs → ∀ e ∈ fs, e.content ≠ none) →
    ((bs.flatMap (fun b => if startsWithDot b.name then []
        else match b.listing with | none => [] | some files => files)).find?
          (fun e => includesStr e.name conversationId && endsWithJson e.name) = none →
      getTranscriptGo contacts conversationId bs = QueryResult.notFound conversationId) ∧
    (∀ e d, (bs.flatMap (fun b => if startsWithDot b.name then []
        else match b.listing with | none => [] | some files => files)).find?
          (fun e => includesStr e.name conversationId && endsWithJson e.name) = some e →
      e.content = some d →
      getTranscriptGo contacts conversationId bs =
        renderQueryResult contacts conversationId d)
  | [] => fun _ => ⟨fun _ => rfl, fun e d h _ => by simp at h⟩
  | b :: bs => fun hparse => by
    have ih := getTranscriptGo_spec contacts conversationId bs
      (fun b2 hb2 => hparse b2 (List.mem_cons_of_mem _ hb2))
    by_cases hdot : startsWithDot b.name
    · have hskipL : getTranscriptGo contacts conversationId (b :: bs) =
          getTranscriptGo contacts conversationId bs := by
        simp only [getTranscriptGo]
        rw [if_pos hdot]
      have hskipF : ((b :: bs).flatMap (fun b => if startsWithDot b.name then []
          else match b.listing with | none => [] | some files => files)) =
          (bs.flatMap (fun b => if startsWithDot b.name then []
            else match b.listing with | none => [] | some files => files)) := by
        rw [List.flatMap_cons, if_pos hdot, List.nil_append]
      rw [hskipL, hskipF]
      exact ih
    · cases hl : b.listing with
      | none =>
        have hskipL : getTranscriptGo contacts conversationId (b :: bs) =
            getTranscriptGo contacts conversationId bs := by
          simp only [getTranscriptGo]
          rw [if_neg hdot, hl]
        have hskipF : ((b :: bs).flatMap (fun b => if startsWithDot b.name then []
            else match b.listing with | none => [] | some files => files)) =
            (bs.flatMap (fun b => if startsWithDot b.name then []
              else match b.listing with | none => [] | some files => files)) := by
          rw [List.flatMap_cons, if_neg hdot, hl, List.nil_append]
        rw [hskipL, hskipF]
        exact ih
      | some files =>
        have hflat : ((b :: bs).flatMap (fun b => if startsWithDot b.name then []
            else match b.listing with | none => [] | some files => files)) =
            files ++ (bs.flatMap (fun b => if startsWithDot b.name then []
              else match b.listing with | none => [] | some files => files)) := by
          rw [List.flatMap_cons, if_neg hdot, hl]
        rw [hflat, List.find?_append]
        cases hfind : files.find?
            (fun e => includesStr e.name conversationId && endsWithJson e.name) with
        | some e =>
          have hmatch : findMatchFile conversationId files = some e.content :=
            (findMatchFile_eq_find? conversationId files).2 e hfind
          have hmem := List.mem_of_find?_eq_some hfind
          have hcontent := hparse b (List.mem_cons_self b bs) files hl e hmem
          cases hce : e.content with
          | none => exact absurd hce hcontent
          | some d =>
            constructor
            · intro h
              rw [Option.or] at h
              exact absurd h (by simp)
            · intro e2 d2 h hd2
              rw [Option.or] at h
              have he2 : e = e2 := Option.some.inj h
              subst he2
              rw [hce] at hd2
              have hd2e : d = d2 := Option.some.inj hd2
              subst hd2e
              simp [getTranscriptGo, hl, hdot, hmatch, hce]
        | none =>
          have hmatch : findMatchFile conversationId files = none :=
            (findMatchFile_eq_find? conversationId files).1 hfind
          have hgo : getTranscriptGo contacts conversationId (b :: bs) =
              getTranscriptGo contacts conversationId bs := by
            simp [getTranscriptGo, hl, hdot, hmatch]
          rw [hgo]
          have hor : (Option.none).or ((bs.flatMap (fun b => if startsWithDot b.name then []
              else match b.listing with | none => [] | some files => files)).find?
                (fun e => includesStr e.name conversationId && endsWithJson e.name)) =
              ((bs.flatMap (fun b => if startsWithDot b.name then []
                else match b.listing with | none => [] | some files => files)).find?
                  (fun e => includesStr e.name conversationId && endsWithJson e.name)) := by
            rw [Option.or]
          rw [hor]
          exact ih

/-- C10 (counterexample): the claim says that when the queried
conversation's own file exists the query never returns a different
conversation's transcript; but the file test is a substring `includes`,
and the bucket's listing has `10-00-00_abcd.json` before
`09-00-00_abc.json`, so querying `abc` returns the transcript of
conversation `abcd` even though `abc`'s file is present. -/
theorem c10_counterexample_substring_shadow :
    (∃ b ∈ queryMailbox, ∃ fs, b.listing = some fs ∧
      ∃ e ∈ fs, e.name = "09-00-00_abc.json" ∧ e.content = some exactRecord) ∧
    extractConversationId exactRecord = "abc" ∧
    getTranscript true queryMailbox "abc" [] =
      QueryResult.found "abc" "+10000000001" "[0:00] Alfred: hi" ∧
    renderQueryResult [] "abc" exactRecord =
      QueryResult.found "abc" "+34612345678" "[1:01] +34612345678: yo" ∧
    QueryResult.found "abc" "+10000000001" "[0:00] Alfred: hi" ≠
      renderQueryResult [] "abc" exactRecord := by
  refine ⟨by decide, rfl, ?_, rfl, by decide⟩
  rfl

/-- C10 (amended): the query returns the rendering of the first file —
buckets newest-first, files in raw listing order — whose name contains
the queried identifier as a substring and ends in `.json` (not
necessarily the file of that exact conversation), and the not-found
message when no file name matches; stated for mailboxes whose entries
all parse. -/
theorem c10_amended_first_substring_match (dirs : List Bucket) (conversationId : String)
    (contacts : List (String × String))
    (hparse : ∀ b ∈ dirs, ∀ fs, b.listing = some fs → ∀ e ∈ fs, e.content ≠ none) :
    ((eligibleFiles dirs).find?
        (fun e => includesStr e.name conversationId && endsWithJson e.name) = none →
      getTranscript true dirs conversationId contacts = QueryResult.notFound conversationId) ∧
    (∀ e d, (eligibleFiles dirs).find?
        (fun e => includesStr e.name conversationId && endsWithJson e.name) = some e →
      e.content = some d →
      getTranscript true dirs conversationId contacts =
        renderQueryResult contacts conversationId d) :=
  getTranscriptGo_spec contacts conversationId (sortBucketsDesc dirs)
    (fun b hb => hparse b (mem_sortBucketsDesc.1 hb))

/-- Witness for C10 (amended): the first substring match in the
concrete mailbox is the `abcd` file, and the query returns its
rendering. -/
theorem c10_amended_first_match_witness :
    getTranscript true queryMailbox "abc" [] =
      renderQueryResult [] "abc" superstringRecord :=
  (c10_amended_first_substring_match queryMailbox "abc" [] (by decide)).2
    { name := "10-00-00_abcd.json", content := some superstringRecord } superstringRecord
    (by decide) (by decide)

end AlfredTalk
